import Mathlib

deriving instance DecidableEq for Except

/-!
Shallow embedding of the dykcommons prediction-market trading and settlement
engine: the place-order matching handler, the sell-position handler and the
resolve-market (vote tally + settlement) handler, together with the ledger
tables they read and write.  Each definition is translated from the
corresponding TypeScript edge-function source; theorems below settle the
specification claims against these definitions.
-/

namespace DykCommons

/-- Contract side, `'YES' | 'NO'` in the source. -/
inductive Side
  | YES
  | NO
deriving DecidableEq, Repr

/-- Market lifecycle status (`markets.status`). -/
inductive MarketStatus
  | OPEN
  | VOTING
  | RESOLVED
  | CANCELLED
deriving DecidableEq, Repr

/-- A row of the `orders` table. -/
structure Order where
  id : Nat
  marketId : Nat
  userId : Nat
  side : Side
  price : Int
  quantity : Int
  remainingQuantity : Int
  isSellOrder : Bool
  createdAt : Nat
deriving DecidableEq, Repr

/-- A row of the `markets` table (the fields the engine touches). -/
structure Market where
  id : Nat
  status : MarketStatus
  leagueId : Option Nat
  resolvedOutcome : Option Side
  reportedAt : Option Nat
  reportedBy : Option Nat
  evidenceUrl : Option Nat
deriving DecidableEq, Repr

/-- A row of the `positions` table: per (market, user) share holdings. -/
structure Position where
  id : Nat
  marketId : Nat
  userId : Nat
  yesShares : Int
  noShares : Int
deriving DecidableEq, Repr

/-- A row of the `trades` table. -/
structure Trade where
  marketId : Nat
  yesUserId : Nat
  noUserId : Nat
  price : Int
  quantity : Int
deriving DecidableEq, Repr

/-- A row of the `league_members` table: per-league token balance. -/
structure Member where
  leagueId : Nat
  userId : Nat
  tokenBalance : Int
deriving DecidableEq, Repr

/-- A row of the `votes` table. -/
structure VoteRow where
  marketId : Nat
  userId : Nat
  vote : Side
  stakeAmount : Int
deriving DecidableEq, Repr

/-- The single `voting_settings` row (bloc weights used by the tally). -/
structure VotingSettings where
  yesBlocWeight : ℚ
  noBlocWeight : ℚ
  adminWeight : ℚ
deriving DecidableEq, Repr

/-- The ledger store: one list per table, plus the set of admin user ids
(`user_roles` rows with role `admin`) and fresh-id counters. -/
structure St where
  markets : List Market
  orders : List Order
  trades : List Trade
  positions : List Position
  members : List Member
  votes : List VoteRow
  admins : List Nat
  votingSettings : Option VotingSettings
  nextOrderId : Nat
  nextPositionId : Nat
deriving DecidableEq, Repr

/-- Tagged errors corresponding to the handlers' error responses. -/
inductive Err
  | missingFields
  | invalidPrice
  | invalidQuantity
  | marketNotFound
  | marketNotOpen
  | notLeagueMember
  | insufficientBalance
  | pendingVotes
  | notAuthorized
  | marketNotVoting
  | noVotesYet
  | notAllVoted
  | noPosition
  | notEnoughShares
deriving DecidableEq, Repr

/-- `markets.select().eq('id', id).single()`. -/
def findMarket (st : St) (id : Nat) : Option Market :=
  st.markets.find? (fun m => m.id == id)

/-- `league_members.select().eq('league_id', l).eq('user_id', u).single()`. -/
def findMember (st : St) (l u : Nat) : Option Member :=
  st.members.find? (fun m => m.leagueId == l && m.userId == u)

/-- `positions.select().eq('market_id', m).eq('user_id', u).single()`. -/
def findPosition (st : St) (marketId userId : Nat) : Option Position :=
  st.positions.find? (fun p => p.marketId == marketId && p.userId == userId)

/-- `league_members.update({token_balance: b}).eq('league_id', l).eq('user_id', u)`. -/
def updateMemberBalance (st : St) (l u : Nat) (b : Int) : St :=
  { st with members := st.members.map (fun m =>
      if m.leagueId == l && m.userId == u then { m with tokenBalance := b } else m) }

/-- The repeated select-then-update-if-found credit pattern of the handlers:
read the member row for (league, user) and add `amount` to its balance; a
missing league id or missing member row makes it a no-op, as in the source. -/
def creditMember (st : St) (l? : Option Nat) (u : Nat) (amount : Int) : St :=
  match l? with
  | none => st
  | some l =>
    match findMember st l u with
    | none => st
    | some m => updateMemberBalance st l u (m.tokenBalance + amount)

/-- `orders.delete().eq('id', oid)`. -/
def deleteOrder (st : St) (oid : Nat) : St :=
  { st with orders := st.orders.filter (fun o => o.id != oid) }

/-- `orders.update({remaining_quantity: r}).eq('id', oid)`. -/
def setOrderRemaining (st : St) (oid : Nat) (r : Int) : St :=
  { st with orders := st.orders.map (fun o =>
      if o.id == oid then { o with remainingQuantity := r } else o) }

/-- `positions.update(...).eq('id', pid)`. -/
def updatePositionRow (st : St) (pid : Nat) (f : Position → Position) : St :=
  { st with positions := st.positions.map (fun p => if p.id == pid then f p else p) }

/-- `positions.insert({market_id, user_id, yes_shares, no_shares})`. -/
def insertPosition (st : St) (marketId userId : Nat) (ys ns : Int) : St :=
  { st with
    positions := st.positions ++
      [{ id := st.nextPositionId, marketId := marketId, userId := userId,
         yesShares := ys, noShares := ns }],
    nextPositionId := st.nextPositionId + 1 }

/-- The select-position / update-or-insert pattern giving YES shares to a
user (used by both matching passes and by sell-order fills). -/
def addYesShares (st : St) (marketId userId : Nat) (q : Int) : St :=
  match findPosition st marketId userId with
  | some p => updatePositionRow st p.id (fun r => { r with yesShares := p.yesShares + q })
  | none => insertPosition st marketId userId q 0

/-- The select-position / update-or-insert pattern giving NO shares. -/
def addNoShares (st : St) (marketId userId : Nat) (q : Int) : St :=
  match findPosition st marketId userId with
  | some p => updatePositionRow st p.id (fun r => { r with noShares := p.noShares + q })
  | none => insertPosition st marketId userId 0 q

/-- Stable insertion of an order into a list sorted by ascending creation time. -/
def insertByCreated (o : Order) : List Order → List Order
  | [] => [o]
  | x :: xs => if o.createdAt < x.createdAt then o :: x :: xs else x :: insertByCreated o xs

/-- `order('created_at', { ascending: true })`: stable sort by creation time. -/
def sortByCreated : List Order → List Order
  | [] => []
  | x :: xs => insertByCreated x (sortByCreated xs)

/-- The opposite contract side. -/
def oppositeSide : Side → Side
  | Side.YES => Side.NO
  | Side.NO => Side.YES

/-- The resting-sell-order query of the place-order handler: orders of this
market, same side, exact price, sell flag set, positive remaining quantity,
not owned by the acting user, ordered by ascending creation time. -/
def eligibleSellOrders (st : St) (marketId : Nat) (side : Side) (price : Int)
    (userId : Nat) : List Order :=
  sortByCreated (st.orders.filter (fun o =>
    o.marketId == marketId && o.side == side && o.price == price &&
    o.isSellOrder && decide (0 < o.remainingQuantity) && o.userId != userId))

/-- The resting-buy(mint)-order query shared by the place-order mint pass and
the sell-position handler: orders of this market, the given side, exact
price, sell flag clear, positive remaining quantity, not owned by the acting
user, ordered by ascending creation time. -/
def eligibleBuyOrders (st : St) (marketId : Nat) (side : Side) (price : Int)
    (userId : Nat) : List Order :=
  sortByCreated (st.orders.filter (fun o =>
    o.marketId == marketId && o.side == side && o.price == price &&
    !o.isSellOrder && decide (0 < o.remainingQuantity) && o.userId != userId))

/-- One entry of the place-order handler's `matches` array. -/
structure MatchResult where
  orderId : Nat
  orderUserId : Nat
  fillQuantity : Int
  isContractTransfer : Bool
  originalRemaining : Int
deriving DecidableEq, Repr

/-- One pass of the place-order matching loop: walk the candidate list,
breaking when the remaining incoming quantity is zero, filling each candidate
by min(remaining, candidate remaining). -/
def matchPass (isTransfer : Bool) : List Order → Int → List MatchResult × Int
  | [], rem => ([], rem)
  | o :: os, rem =>
    if rem = 0 then ([], rem)
    else
      let fill := min rem o.remainingQuantity
      let r := matchPass isTransfer os (rem - fill)
      ({ orderId := o.id, orderUserId := o.userId, fillQuantity := fill,
         isContractTransfer := isTransfer, originalRemaining := o.remainingQuantity } :: r.1,
       r.2)

/-- Request body of the place-order handler. -/
structure PlaceOrderRequest where
  marketId : Nat
  userId : Nat
  side : Side
  price : Int
  quantity : Int
  leagueId : Option Nat
deriving DecidableEq, Repr

/-- Success payload of the trading handlers. -/
structure TradeResult where
  matched : Int
  remaining : Int
  tradesCount : Nat
deriving DecidableEq, Repr

/-- The pending-vote gate of the place-order handler: true when some market
is in VOTING status (in any league) on which the acting user has no vote. -/
def hasUnvotedVotingMarket (st : St) (userId : Nat) : Bool :=
  let votingMarkets := st.markets.filter (fun m => m.status == MarketStatus.VOTING)
  if 0 < votingMarkets.length then
    let votedMarketIds := (st.votes.filter (fun v => v.userId == userId)).map (fun v => v.marketId)
    votingMarkets.any (fun m => !(votedMarketIds.contains m.id))
  else
    false

/-- Context produced by the checked prefix of the place-order handler and
consumed by its matching phase. -/
structure OrderCtx where
  st : St
  isAdmin : Bool
  effLeague : Option Nat
deriving DecidableEq, Repr

/-- The checked prefix of the place-order handler, up to and including the
balance debit: pending-vote gate, admin lookup, field/price/quantity
validation, market lookup and OPEN check, league-member lookup, cost
computation, and — for non-admins — the balance check and up-front debit. -/
def placeOrderPrep (st : St) (req : PlaceOrderRequest) : Except Err OrderCtx :=
  if hasUnvotedVotingMarket st req.userId then Except.error Err.pendingVotes
  else
    let isAdmin := st.admins.contains req.userId
    if req.price = 0 ∨ req.quantity = 0 then Except.error Err.missingFields
    else if req.price < 1 ∨ 99 < req.price then Except.error Err.invalidPrice
    else if req.quantity < 1 then Except.error Err.invalidQuantity
    else
      match findMarket st req.marketId with
      | none => Except.error Err.marketNotFound
      | some market =>
        if market.status != MarketStatus.OPEN then Except.error Err.marketNotOpen
        else
          let effLeague := match req.leagueId with
            | some l => some l
            | none => market.leagueId
          let member := match effLeague with
            | some l => findMember st l req.userId
            | none => none
          let costPerShare := if req.side == Side.YES then req.price else 100 - req.price
          let totalCost := costPerShare * req.quantity
          if isAdmin then Except.ok { st := st, isAdmin := true, effLeague := effLeague }
          else
            match effLeague, member with
            | some l, some mem =>
              if mem.tokenBalance < totalCost then Except.error Err.insufficientBalance
              else Except.ok
                { st := updateMemberBalance st l req.userId (mem.tokenBalance - totalCost),
                  isAdmin := false, effLeague := some l }
            | _, _ => Except.error Err.notLeagueMember

/-- The two-pass match computation of the place-order handler: first the
direct-transfer pass over resting sell orders of the same side at the same
price, then the synthetic-mint pass over resting buy orders of the opposite
side at the complementary price. -/
def placeOrderMatches (ctx : OrderCtx) (req : PlaceOrderRequest) :
    List MatchResult × Int :=
  let sells := eligibleSellOrders ctx.st req.marketId req.side req.price req.userId
  let mints := eligibleBuyOrders ctx.st req.marketId (oppositeSide req.side)
      (100 - req.price) req.userId
  let p1 := matchPass true sells req.quantity
  let p2 := matchPass false mints p1.2
  (p1.1 ++ p2.1, p2.2)

/-- Execution of one match of the place-order handler: insert the trade, pay
the seller (direct-transfer pass) or credit both minted positions (mint
pass), then decrement or delete the matched resting order. -/
def execMatch (marketId userId : Nat) (side : Side) (price : Int)
    (effLeague : Option Nat) (st : St) (m : MatchResult) : St :=
  let st1 :=
    if m.isContractTransfer then
      let sellerId := m.orderUserId
      let yesUserId := if side == Side.YES then userId else sellerId
      let noUserId := if side == Side.NO then userId else sellerId
      let stT := { st with trades := st.trades ++
        [{ marketId := marketId, yesUserId := yesUserId, noUserId := noUserId,
           price := price, quantity := m.fillQuantity }] }
      let saleProceeds := if side == Side.YES then price * m.fillQuantity
        else (100 - price) * m.fillQuantity
      let stP := creditMember stT effLeague sellerId saleProceeds
      if side == Side.YES then addYesShares stP marketId userId m.fillQuantity
      else addNoShares stP marketId userId m.fillQuantity
    else
      let yesUserId := if side == Side.YES then userId else m.orderUserId
      let noUserId := if side == Side.NO then userId else m.orderUserId
      let tradePrice := if side == Side.YES then price else 100 - price
      let stT := { st with trades := st.trades ++
        [{ marketId := marketId, yesUserId := yesUserId, noUserId := noUserId,
           price := tradePrice, quantity := m.fillQuantity }] }
      let st2 := addYesShares stT marketId yesUserId m.fillQuantity
      addNoShares st2 marketId noUserId m.fillQuantity
  let newRemaining := m.originalRemaining - m.fillQuantity
  if newRemaining = 0 then deleteOrder st1 m.orderId
  else setOrderRemaining st1 m.orderId newRemaining

/-- Folding match execution over the matches list. -/
def applyMatches (marketId userId : Nat) (side : Side) (price : Int)
    (effLeague : Option Nat) (st : St) (ms : List MatchResult) : St :=
  ms.foldl (execMatch marketId userId side price effLeague) st

/-- `orders.insert(...)` for the unfilled remainder of an incoming order. -/
def insertRestingOrder (st : St) (marketId userId : Nat) (side : Side)
    (price quantity remaining : Int) (isSell : Bool) : St :=
  { st with
    orders := st.orders ++
      [{ id := st.nextOrderId, marketId := marketId, userId := userId, side := side,
         price := price, quantity := quantity, remainingQuantity := remaining,
         isSellOrder := isSell, createdAt := st.nextOrderId }],
    nextOrderId := st.nextOrderId + 1 }

/-- The matching phase of the place-order handler: compute matches, execute
them, and rest any unfilled remainder as a new (mint) order. -/
def placeOrderMatchPhase (ctx : OrderCtx) (req : PlaceOrderRequest) :
    St × TradeResult :=
  let p := placeOrderMatches ctx req
  let stE := applyMatches req.marketId req.userId req.side req.price ctx.effLeague ctx.st p.1
  let stF := if 0 < p.2 then
      insertRestingOrder stE req.marketId req.userId req.side req.price req.quantity p.2 false
    else stE
  (stF, { matched := req.quantity - p.2, remaining := p.2, tradesCount := p.1.length })

/-- The place-order handler (`place-order` edge function): checked prefix
with up-front escrow debit, then the two-pass matching phase.  Errors leave
the store untouched. -/
def placeOrder (st : St) (req : PlaceOrderRequest) : St × Except Err TradeResult :=
  match placeOrderPrep st req with
  | Except.error e => (st, Except.error e)
  | Except.ok ctx =>
    let r := placeOrderMatchPhase ctx req
    (r.1, Except.ok r.2)

/-- The acting user's league balance, 0 when no member row exists. -/
def memberBalance (st : St) (l u : Nat) : Int :=
  match findMember st l u with
  | some m => m.tokenBalance
  | none => 0

/-- Request body of the sell-position handler. -/
structure SellRequest where
  marketId : Nat
  userId : Nat
  sideToSell : Side
  price : Int
  quantity : Int
  leagueId : Option Nat
deriving DecidableEq, Repr

/-- The sell-position matching loop: walk the candidate buy orders, breaking
when the remaining quantity is zero, recording (buyer, fill) pairs and the
deferred (order id, new remaining) updates. -/
def sellMatchLoop : List Order → Int → List (Nat × Int) × List (Nat × Int) × Int
  | [], rem => ([], [], rem)
  | o :: os, rem =>
    if rem = 0 then ([], [], rem)
    else
      let fill := min rem o.remainingQuantity
      let r := sellMatchLoop os (rem - fill)
      ((o.userId, fill) :: r.1, (o.id, o.remainingQuantity - fill) :: r.2.1, r.2.2)

/-- Execution of one matched sell fill: insert the trade at the raw request
price, credit the seller's proceeds, and credit the buyer's shares. -/
def execSellTrade (marketId userId : Nat) (sideToSell : Side) (price : Int)
    (effLeague : Option Nat) (st : St) (t : Nat × Int) : St :=
  let yesUserId := if sideToSell == Side.YES then t.1 else userId
  let noUserId := if sideToSell == Side.NO then t.1 else userId
  let stT := { st with trades := st.trades ++
    [{ marketId := marketId, yesUserId := yesUserId, noUserId := noUserId,
       price := price, quantity := t.2 }] }
  let saleProceeds := if sideToSell == Side.YES then price * t.2 else (100 - price) * t.2
  let stP := creditMember stT effLeague userId saleProceeds
  if sideToSell == Side.YES then addYesShares stP marketId t.1 t.2
  else addNoShares stP marketId t.1 t.2

/-- Apply a deferred order update of the sell-position handler: delete the
order when its new remaining quantity is zero, otherwise store it. -/
def applySellOrderUpdate (st : St) (u : Nat × Int) : St :=
  if u.2 = 0 then deleteOrder st u.1 else setOrderRemaining st u.1 u.2

/-- Context produced by the checked prefix of the sell-position handler and
consumed by its matching phase: the store with the shares already escrowed
out of the seller's position, and the effective league. -/
structure SellCtx where
  st : St
  effLeague : Option Nat
deriving DecidableEq, Repr

/-- The checked prefix of the sell-position handler, up to and including the
share escrow: field and price validation (no quantity-range check in the
source), market OPEN check, position lookup, available-share check, and the
up-front escrow update subtracting the quantity from the position. -/
def sellPositionPrep (st : St) (req : SellRequest) : Except Err SellCtx :=
  if req.price = 0 ∨ req.quantity = 0 then Except.error Err.missingFields
  else if req.price < 1 ∨ 99 < req.price then Except.error Err.invalidPrice
  else
    match findMarket st req.marketId with
    | none => Except.error Err.marketNotFound
    | some market =>
      if market.status != MarketStatus.OPEN then Except.error Err.marketNotOpen
      else
        let effLeague := match req.leagueId with
          | some l => some l
          | none => market.leagueId
        match findPosition st req.marketId req.userId with
        | none => Except.error Err.noPosition
        | some position =>
          let availableShares := if req.sideToSell == Side.YES then position.yesShares
            else position.noShares
          if availableShares < req.quantity then Except.error Err.notEnoughShares
          else Except.ok
            { st := updatePositionRow st position.id (fun p =>
                if req.sideToSell == Side.YES then
                  { p with yesShares := position.yesShares - req.quantity }
                else
                  { p with noShares := position.noShares - req.quantity }),
              effLeague := effLeague }

/-- The matching phase of the sell-position handler: match against resting
buy orders of the same side at the same price, execute the trades, apply the
deferred order updates, and rest any remainder as a sell order. -/
def sellMatchPhase (ctx : SellCtx) (req : SellRequest) : St × TradeResult :=
  let cands := eligibleBuyOrders ctx.st req.marketId req.sideToSell req.price req.userId
  let r := sellMatchLoop cands req.quantity
  let stT := r.1.foldl
    (execSellTrade req.marketId req.userId req.sideToSell req.price ctx.effLeague) ctx.st
  let stU := r.2.1.foldl applySellOrderUpdate stT
  let stF := if 0 < r.2.2 then
      insertRestingOrder stU req.marketId req.userId req.sideToSell req.price
        req.quantity r.2.2 true
    else stU
  (stF, { matched := req.quantity - r.2.2, remaining := r.2.2, tradesCount := r.1.length })

/-- The sell-position handler (`sell-position` edge function): checked prefix
with up-front share escrow, then the single-pass matching phase.  Note the
handler has no pending-vote gate and no admin check. -/
def sellPosition (st : St) (req : SellRequest) : St × Except Err TradeResult :=
  match sellPositionPrep st req with
  | Except.error e => (st, Except.error e)
  | Except.ok ctx =>
    let r := sellMatchPhase ctx req
    (r.1, Except.ok r.2)

/-- Request body of the resolve-market handler. -/
structure ResolveRequest where
  marketId : Nat
  outcome : Side
  adminUserId : Option Nat
deriving DecidableEq, Repr

/-- Success payload of the resolve-market handler. -/
inductive ResolveResult
  | rejected
  | resolvedWith (outcome : Side)
deriving DecidableEq, Repr

/-- Fallback bloc weights used when no voting-settings row exists
(`?? 49.5`, `?? 49.5`, `?? 1.0` in the source). -/
def defaultSettings : VotingSettings :=
  { yesBlocWeight := 49.5, noBlocWeight := 49.5, adminWeight := 1 }

/-- Positions of a market with a nonzero holding on either side
(the handler's `stakeholders` filter). -/
def stakeholdersOf (st : St) (marketId : Nat) : List Position :=
  (st.positions.filter (fun p => p.marketId == marketId)).filter
    (fun p => decide (0 < p.yesShares) || decide (0 < p.noShares))

/-- `votes.select().eq('market_id', marketId)`. -/
def votesOf (st : St) (marketId : Nat) : List VoteRow :=
  st.votes.filter (fun v => v.marketId == marketId)

/-- The weighted tally of the resolve-market handler: non-admin YES/NO blocs
share their fixed bloc weights apportioned by voter counts; each admin voter
adds a flat admin weight to their chosen side.  Returns (yes, no) totals. -/
def weightedTally (st : St) (votes : List VoteRow) (s : VotingSettings) : ℚ × ℚ :=
  let yesVoters := votes.filter (fun v => v.vote == Side.YES)
  let noVoters := votes.filter (fun v => v.vote == Side.NO)
  let nonAdminYes := yesVoters.filter (fun v => !st.admins.contains v.userId)
  let nonAdminNo := noVoters.filter (fun v => !st.admins.contains v.userId)
  let totalNonAdmin := nonAdminYes.length + nonAdminNo.length
  let base : ℚ × ℚ :=
    if 0 < totalNonAdmin then
      (s.yesBlocWeight * nonAdminYes.length / totalNonAdmin,
       s.noBlocWeight * nonAdminNo.length / totalNonAdmin)
    else (0, 0)
  let adminYes := (votes.filter (fun v => st.admins.contains v.userId && v.vote == Side.YES)).length
  let adminNo := (votes.filter (fun v => st.admins.contains v.userId && v.vote == Side.NO)).length
  (base.1 + s.adminWeight * adminYes, base.2 + s.adminWeight * adminNo)

/-- `yesPercentage`: the weighted YES share of the total, as a percentage;
0 when the weighted total is not positive. -/
def yesPercentage (st : St) (votes : List VoteRow) (s : VotingSettings) : ℚ :=
  let w := weightedTally st votes s
  if 0 < w.1 + w.2 then w.1 / (w.1 + w.2) * 100 else 0

/-- The stake-refund loop of the resolve-market handler: credit back the
stake of every vote for the given choice with a positive stake, when the
market has a league and the member row exists. -/
def refundStakes (st : St) (votes : List VoteRow) (choice : Side)
    (leagueId : Option Nat) : St :=
  votes.foldl (fun s v =>
    if v.vote == choice && decide (0 < v.stakeAmount) then
      creditMember s leagueId v.userId v.stakeAmount
    else s) st

/-- Pay out one position during settlement: winning-side shares times 100
tokens, credited when positive and the market has a league. -/
def payoutPosition (outcome : Side) (leagueId : Option Nat) (st : St) (p : Position) : St :=
  let winningShares := if outcome == Side.YES then p.yesShares else p.noShares
  if decide (0 < winningShares) then creditMember st leagueId p.userId (winningShares * 100)
  else st

/-- Refund one open order during settlement: escrowed cost per share times
remaining quantity, credited to the owner, then the order is deleted. -/
def refundOrder (leagueId : Option Nat) (st : St) (o : Order) : St :=
  let costPerShare := if o.side == Side.YES then o.price else 100 - o.price
  let refund := costPerShare * o.remainingQuantity
  let s1 := creditMember st leagueId o.userId refund
  deleteOrder s1 o.id

/-- The shared settlement section of the resolve-market handler (run by both
the admin force-resolve path and the vote-consensus path): set the market
RESOLVED with the outcome, pay every position's winning shares at 100 tokens
each, and refund and delete every order with positive remaining quantity. -/
def settleMarket (st : St) (marketId : Nat) (outcome : Side)
    (leagueId : Option Nat) : St :=
  let st1 : St := { st with markets := st.markets.map (fun m =>
    if m.id == marketId then
      { m with status := MarketStatus.RESOLVED, resolvedOutcome := some outcome }
    else m) }
  let ps := st1.positions.filter (fun p => p.marketId == marketId)
  let st2 := ps.foldl (payoutPosition outcome leagueId) st1
  let os := st2.orders.filter (fun o =>
    o.marketId == marketId && decide (0 < o.remainingQuantity))
  os.foldl (refundOrder leagueId) st2

/-- The resolve-market handler (`resolve-market` edge function).  With an
admin caller it checks only the admin role and runs settlement with the
requested outcome (no market-status guard).  Without one it requires VOTING
status, a nonempty vote set covering every stakeholder, computes the
weighted tally, and either rejects (refund NO stakes, reopen and clear the
market, delete its votes) or resolves YES (refund YES stakes, settle). -/
def resolveMarket (st : St) (req : ResolveRequest) : St × Except Err ResolveResult :=
  match findMarket st req.marketId with
  | none => (st, Except.error Err.marketNotFound)
  | some market =>
    let leagueId := market.leagueId
    let s := st.votingSettings.getD defaultSettings
    match req.adminUserId with
    | some adminId =>
      if !st.admins.contains adminId then (st, Except.error Err.notAuthorized)
      else
        (settleMarket st req.marketId req.outcome leagueId,
         Except.ok (ResolveResult.resolvedWith req.outcome))
    | none =>
      if market.status != MarketStatus.VOTING then (st, Except.error Err.marketNotVoting)
      else
        let stakeholders := stakeholdersOf st req.marketId
        let votes := votesOf st req.marketId
        if votes.isEmpty then (st, Except.error Err.noVotesYet)
        else
          let votedUserIds := votes.map (fun v => v.userId)
          let allVoted := stakeholders.all (fun p => votedUserIds.contains p.userId)
          if !allVoted then (st, Except.error Err.notAllVoted)
          else
            if yesPercentage st votes s ≤ 50 then
              let stR := refundStakes st votes Side.NO leagueId
              let stM : St := { stR with markets := stR.markets.map (fun m =>
                if m.id == req.marketId then
                  { m with status := MarketStatus.OPEN, reportedAt := none,
                           reportedBy := none, evidenceUrl := none }
                else m) }
              let stV : St :=
                { stM with votes := stM.votes.filter (fun v => v.marketId != req.marketId) }
              (stV, Except.ok ResolveResult.rejected)
            else
              let stR := refundStakes st votes Side.YES leagueId
              (settleMarket stR req.marketId Side.YES leagueId,
               Except.ok (ResolveResult.resolvedWith Side.YES))

/-! ### Concrete ledger states used by counterexamples and witnesses -/

/-- An OPEN market with id 1 in league 1. -/
def openMarket1 : Market :=
  { id := 1, status := MarketStatus.OPEN, leagueId := some 1, resolvedOutcome := none,
    reportedAt := none, reportedBy := none, evidenceUrl := none }

/-- State for the double-resolution scenario: market 1 OPEN, user 2 holds one
YES share with balance 0, user 9 is an admin. -/
def dSt : St :=
  { markets := [openMarket1], orders := [], trades := [],
    positions := [{ id := 1, marketId := 1, userId := 2, yesShares := 1, noShares := 0 }],
    members := [{ leagueId := 1, userId := 2, tokenBalance := 0 }],
    votes := [], admins := [9], votingSettings := none,
    nextOrderId := 1, nextPositionId := 2 }

/-- Admin force-resolve request for market 1 with outcome YES by admin 9. -/
def dReq : ResolveRequest := { marketId := 1, outcome := Side.YES, adminUserId := some 9 }

/-- State for the direct-sale scenario: user 3 rests a YES sell of quantity 3
at price 55 on market 1; user 2 has balance 200. -/
def tSt : St :=
  { markets := [openMarket1],
    orders := [{ id := 10, marketId := 1, userId := 3, side := Side.YES, price := 55,
                 quantity := 3, remainingQuantity := 3, isSellOrder := true, createdAt := 0 }],
    trades := [], positions := [],
    members := [{ leagueId := 1, userId := 2, tokenBalance := 200 },
                { leagueId := 1, userId := 3, tokenBalance := 0 }],
    votes := [], admins := [], votingSettings := none,
    nextOrderId := 11, nextPositionId := 1 }

/-- Buy request: user 2 buys YES quantity 2 at price 55 on market 1. -/
def tReq : PlaceOrderRequest :=
  { marketId := 1, userId := 2, side := Side.YES, price := 55, quantity := 2, leagueId := some 1 }

/-- The context the checked prefix of the place-order handler produces for
`tSt`/`tReq`: user 2 debited 110 tokens. -/
def tCtx : OrderCtx :=
  { st := { tSt with members := [{ leagueId := 1, userId := 2, tokenBalance := 90 },
                                 { leagueId := 1, userId := 3, tokenBalance := 0 }] },
    isAdmin := false, effLeague := some 1 }

/-- The resting sell order of `tSt`. -/
def tOrder : Order :=
  { id := 10, marketId := 1, userId := 3, side := Side.YES, price := 55,
    quantity := 3, remainingQuantity := 3, isSellOrder := true, createdAt := 0 }

/-- `tSt` with user 2 holding the admin role, for the admin no-debit claim. -/
def tAdminSt : St := { tSt with admins := [2] }

/-- Context the checked prefix produces for `tAdminSt`/`tReq`: no debit. -/
def tAdminCtx : OrderCtx := { st := tAdminSt, isAdmin := true, effLeague := some 1 }

/-- State for the NO-side direct-transfer price scenario: user 3 rests a NO
sell of quantity 1 at price 40 on market 1. -/
def nSt : St :=
  { markets := [openMarket1],
    orders := [{ id := 10, marketId := 1, userId := 3, side := Side.NO, price := 40,
                 quantity := 1, remainingQuantity := 1, isSellOrder := true, createdAt := 0 }],
    trades := [], positions := [],
    members := [{ leagueId := 1, userId := 2, tokenBalance := 100 },
                { leagueId := 1, userId := 3, tokenBalance := 0 }],
    votes := [], admins := [], votingSettings := none,
    nextOrderId := 11, nextPositionId := 1 }

/-- Buy request: user 2 buys NO quantity 1 at price 40 on market 1. -/
def nReq : PlaceOrderRequest :=
  { marketId := 1, userId := 2, side := Side.NO, price := 40, quantity := 1, leagueId := some 1 }

/-- State for the negative-quantity sell scenario: user 2 holds an empty
position on OPEN market 1 and no orders rest. -/
def qSt : St :=
  { markets := [openMarket1], orders := [], trades := [],
    positions := [{ id := 1, marketId := 1, userId := 2, yesShares := 0, noShares := 0 }],
    members := [{ leagueId := 1, userId := 2, tokenBalance := 0 }],
    votes := [], admins := [], votingSettings := none,
    nextOrderId := 1, nextPositionId := 2 }

/-- Sell request with quantity -1 (out of range: quantity < 1). -/
def qReq : SellRequest :=
  { marketId := 1, userId := 2, sideToSell := Side.YES, price := 50, quantity := -1,
    leagueId := some 1 }

/-- State with an unvoted VOTING market (id 5) alongside OPEN market 1 on
which user 2 holds 2 YES shares. -/
def vSt : St :=
  { markets := [openMarket1,
      { id := 5, status := MarketStatus.VOTING, leagueId := some 1, resolvedOutcome := none,
        reportedAt := some 7, reportedBy := some 4, evidenceUrl := some 1 }],
    orders := [], trades := [],
    positions := [{ id := 1, marketId := 1, userId := 2, yesShares := 2, noShares := 0 }],
    members := [{ leagueId := 1, userId := 2, tokenBalance := 0 }],
    votes := [], admins := [], votingSettings := none,
    nextOrderId := 1, nextPositionId := 2 }

/-- Sell request by user 2 on market 1 while market 5 is in VOTING unvoted. -/
def vSell : SellRequest :=
  { marketId := 1, userId := 2, sideToSell := Side.YES, price := 50, quantity := 1,
    leagueId := some 1 }

/-- Buy request by user 2 on market 1 while market 5 is in VOTING unvoted. -/
def vBuy : PlaceOrderRequest :=
  { marketId := 1, userId := 2, side := Side.YES, price := 50, quantity := 1, leagueId := some 1 }

/-- State for the vote-rejection round-trip: market 1 VOTING with two
stakeholders, user 2 voted YES with stake 50, user 3 voted NO with stake 50. -/
def wSt : St :=
  { markets := [{ id := 1, status := MarketStatus.VOTING, leagueId := some 1,
                  resolvedOutcome := none, reportedAt := some 7, reportedBy := some 4,
                  evidenceUrl := some 1 }],
    orders := [], trades := [],
    positions := [{ id := 1, marketId := 1, userId := 2, yesShares := 5, noShares := 0 },
                  { id := 2, marketId := 1, userId := 3, yesShares := 0, noShares := 5 }],
    members := [{ leagueId := 1, userId := 2, tokenBalance := 0 },
                { leagueId := 1, userId := 3, tokenBalance := 0 }],
    votes := [{ marketId := 1, userId := 2, vote := Side.YES, stakeAmount := 50 },
              { marketId := 1, userId := 3, vote := Side.NO, stakeAmount := 50 }],
    admins := [], votingSettings := none,
    nextOrderId := 1, nextPositionId := 3 }

/-- Non-admin tally request for market 1. -/
def wReq : ResolveRequest := { marketId := 1, outcome := Side.YES, adminUserId := none }

/-! ### Closed evaluation theorems -/

/-- C1: the claim fails on the code.  The admin force-resolve path has no
market-status guard: after a first admin resolution leaves market 1 RESOLVED
and pays user 2 their 100-token position payout, a second identical admin
invocation succeeds again (no StateConflict-style error) and credits the
same position a second time, taking the balance from 100 to 200 — the
positions were never zeroed, so the payout repeats.  Only the non-admin
(vote-consensus) path rejects the already-RESOLVED market with the
market-not-in-voting error. -/
theorem resolveMarket_admin_double_resolution_double_pays :
    (resolveMarket dSt dReq).2 = Except.ok (ResolveResult.resolvedWith Side.YES) ∧
    memberBalance (resolveMarket dSt dReq).1 1 2 = 100 ∧
    (findMarket (resolveMarket dSt dReq).1 1).map (fun m => m.status) =
      some MarketStatus.RESOLVED ∧
    (resolveMarket (resolveMarket dSt dReq).1 dReq).2 =
      Except.ok (ResolveResult.resolvedWith Side.YES) ∧
    memberBalance (resolveMarket (resolveMarket dSt dReq).1 dReq).1 1 2 = 200 ∧
    (resolveMarket (resolveMarket dSt dReq).1 { dReq with adminUserId := none }).2 =
      Except.error Err.marketNotVoting := by
  decide

/-- C7: the claim fails on the code.  The sell-position handler validates the
price range but never checks `quantity < 1`: a request with quantity -1 by a
user holding zero shares passes the availability check (-1 > 0 is false), is
accepted, and the share-escrow update `yes_shares - quantity` increases the
position from 0 to 1 — the seller gains a share instead of being rejected. -/
theorem sellPosition_negative_quantity_increases_position :
    (sellPosition qSt qReq).2 =
      Except.ok { matched := 0, remaining := -1, tradesCount := 0 } ∧
    (findPosition qSt 1 2).map (fun p => p.yesShares) = some 0 ∧
    (findPosition (sellPosition qSt qReq).1 1 2).map (fun p => p.yesShares) = some 1 ∧
    qReq.quantity < 1 := by
  decide

/-- C5 counterexample: in the direct-transfer pass the trade is recorded at
the incoming order's raw price, not the probability-implied YES price.  User
2 buys NO at price 40 against user 3's resting NO sell at 40; the recorded
trade price is 40, while the probability-implied YES price is 100 - 40 = 60. -/
theorem trade_price_direct_pass_not_normalized :
    (placeOrder nSt nReq).2 = Except.ok { matched := 1, remaining := 0, tradesCount := 1 } ∧
    (placeOrder nSt nReq).1.trades =
      [{ marketId := 1, yesUserId := 3, noUserId := 2, price := 40, quantity := 1 }] ∧
    nReq.side = Side.NO ∧ (100 - nReq.price : Int) = 60 ∧ ((40 : Int) ≠ 60) := by
  decide

/-- C6 counterexample: user 2 has an unvoted market (id 5) in VOTING status,
yet the sell-position handler accepts their sell order on market 1 and
modifies the store (the escrowed shares leave the position and a resting
sell order appears) — the pending-vote gate exists only in the place-order
handler. -/
theorem sellPosition_ignores_pending_vote_gate :
    hasUnvotedVotingMarket vSt 2 = true ∧
    (sellPosition vSt vSell).2 =
      Except.ok { matched := 0, remaining := 1, tradesCount := 0 } ∧
    (sellPosition vSt vSell).1 ≠ vSt ∧
    (findPosition (sellPosition vSt vSell).1 1 2).map (fun p => p.yesShares) = some 1 := by
  decide

/-- C8 counterexample: settlement pays user 2's 1 winning YES share (balance
0 to 100) but leaves the position row untouched: after resolution the
position still holds 1 YES share instead of being zeroed. -/
theorem settlement_leaves_position_unzeroed :
    memberBalance (resolveMarket dSt dReq).1 1 2 = 100 ∧
    (findMarket (resolveMarket dSt dReq).1 1).map (fun m => m.status) =
      some MarketStatus.RESOLVED ∧
    (findPosition (resolveMarket dSt dReq).1 1 2).map (fun p => p.yesShares) = some 1 := by
  decide

/-! ### Frame lemmas for the store operations -/

theorem find?_map_key_preserving {α : Type} (f : α → α) (p : α → Bool) (l : List α)
    (h : ∀ a, p (f a) = p a) : (l.map f).find? p = (l.find? p).map f := by
  induction l with
  | nil => rfl
  | cons a l ih =>
    cases hpa : p a with
    | true =>
      rw [List.map_cons, List.find?_cons_of_pos _ (by rw [h a]; exact hpa),
        List.find?_cons_of_pos _ hpa]
      rfl
    | false =>
      rw [List.map_cons, List.find?_cons_of_neg _ (by simp [h a, hpa]),
        List.find?_cons_of_neg _ (by simp [hpa]), ih]

/-- The found member row satisfies the lookup key. -/
theorem findMember_key (st : St) (l u : Nat) (m : Member)
    (hf : findMember st l u = some m) : m.leagueId = l ∧ m.userId = u := by
  have hf2 : List.find? (fun mm => mm.leagueId == l && mm.userId == u) st.members = some m := hf
  have hk := List.find?_some hf2
  simpa [Bool.and_eq_true, beq_iff_eq] using hk

theorem findMember_updateMemberBalance (st : St) (l u : Nat) (b : Int) (l2 u2 : Nat) :
    findMember (updateMemberBalance st l u b) l2 u2 =
      (findMember st l2 u2).map (fun m =>
        if m.leagueId == l && m.userId == u then { m with tokenBalance := b } else m) := by
  unfold findMember updateMemberBalance
  exact find?_map_key_preserving _ _ _ (fun a => by
    by_cases hk : (a.leagueId == l && a.userId == u) = true <;> simp [hk])

theorem memberBalance_update_other (st : St) (l u : Nat) (b : Int) (l2 u2 : Nat)
    (h : l2 ≠ l ∨ u2 ≠ u) :
    memberBalance (updateMemberBalance st l u b) l2 u2 = memberBalance st l2 u2 := by
  unfold memberBalance
  rw [findMember_updateMemberBalance]
  cases hf : findMember st l2 u2 with
  | none => rfl
  | some m =>
    have hk := findMember_key st l2 u2 m hf
    have hne : ¬(m.leagueId = l ∧ m.userId = u) := by
      rintro ⟨h1, h2⟩
      rcases h with h | h
      · exact h (hk.1.symm.trans h1)
      · exact h (hk.2.symm.trans h2)
    simp [hne]

theorem memberBalance_update_self (st : St) (l u : Nat) (b : Int) (mem : Member)
    (hm : findMember st l u = some mem) :
    memberBalance (updateMemberBalance st l u b) l u = b := by
  unfold memberBalance
  rw [findMember_updateMemberBalance, hm]
  have hk := findMember_key st l u mem hm
  simp [hk.1, hk.2]

theorem memberBalance_creditMember_other (st : St) (l? : Option Nat) (u : Nat) (a : Int)
    (l2 u2 : Nat) (h : u2 ≠ u) :
    memberBalance (creditMember st l? u a) l2 u2 = memberBalance st l2 u2 := by
  cases l? with
  | none => rfl
  | some l =>
    cases hf : findMember st l u with
    | none => simp [creditMember, hf]
    | some m =>
      simp only [creditMember, hf]
      exact memberBalance_update_other _ _ _ _ _ _ (Or.inr h)

theorem memberBalance_creditMember_self (st : St) (l : Nat) (u : Nat) (a : Int) (mem : Member)
    (hm : findMember st l u = some mem) :
    memberBalance (creditMember st (some l) u a) l u = mem.tokenBalance + a := by
  simp only [creditMember, hm]
  exact memberBalance_update_self _ _ _ _ _ hm

theorem findMember_creditMember_other (st : St) (l? : Option Nat) (u : Nat) (a : Int)
    (l2 u2 : Nat) (h : u2 ≠ u) :
    findMember (creditMember st l? u a) l2 u2 = findMember st l2 u2 := by
  cases l? with
  | none => rfl
  | some l =>
    cases hf : findMember st l u with
    | none => simp [creditMember, hf]
    | some m =>
      simp only [creditMember, hf]
      rw [findMember_updateMemberBalance]
      cases hf2 : findMember st l2 u2 with
      | none => rfl
      | some m2 =>
        have hk := findMember_key st l2 u2 m2 hf2
        have hne : ¬(m2.leagueId = l ∧ m2.userId = u) := fun hc => h (hk.2.symm.trans hc.2)
        simp [hne]

theorem memberBalance_congr (st1 st2 : St) (h : st1.members = st2.members) (l u : Nat) :
    memberBalance st1 l u = memberBalance st2 l u := by
  unfold memberBalance findMember
  rw [h]

theorem members_deleteOrder (st : St) (oid : Nat) :
    (deleteOrder st oid).members = st.members := rfl

theorem members_setOrderRemaining (st : St) (oid : Nat) (r : Int) :
    (setOrderRemaining st oid r).members = st.members := rfl

theorem members_updatePositionRow (st : St) (pid : Nat) (f : Position → Position) :
    (updatePositionRow st pid f).members = st.members := rfl

theorem members_insertPosition (st : St) (m u : Nat) (ys ns : Int) :
    (insertPosition st m u ys ns).members = st.members := rfl

theorem members_insertRestingOrder (st : St) (m u : Nat) (sd : Side) (p q r : Int) (b : Bool) :
    (insertRestingOrder st m u sd p q r b).members = st.members := rfl

theorem members_addYesShares (st : St) (m u : Nat) (q : Int) :
    (addYesShares st m u q).members = st.members := by
  unfold addYesShares
  cases findPosition st m u <;> rfl

theorem members_addNoShares (st : St) (m u : Nat) (q : Int) :
    (addNoShares st m u q).members = st.members := by
  unfold addNoShares
  cases findPosition st m u <;> rfl

theorem positions_updateMemberBalance (st : St) (l u : Nat) (b : Int) :
    (updateMemberBalance st l u b).positions = st.positions := rfl

theorem positions_creditMember (st : St) (l? : Option Nat) (u : Nat) (a : Int) :
    (creditMember st l? u a).positions = st.positions := by
  cases l? with
  | none => rfl
  | some l => cases hf : findMember st l u <;> simp [creditMember, hf, updateMemberBalance]

theorem positions_deleteOrder (st : St) (oid : Nat) :
    (deleteOrder st oid).positions = st.positions := rfl

theorem foldl_field_eq {α β : Type} (g : St → α → St) (f : St → β)
    (hg : ∀ s x, f (g s x) = f s) :
    ∀ (l : List α) (s : St), f (l.foldl g s) = f s := by
  intro l
  induction l with
  | nil => intro s; rfl
  | cons x l ih => intro s; rw [List.foldl_cons, ih, hg]

theorem positions_payoutPosition (oc : Side) (l? : Option Nat) (s : St) (p : Position) :
    (payoutPosition oc l? s p).positions = s.positions := by
  unfold payoutPosition
  dsimp only
  split <;> split
  · exact positions_creditMember _ _ _ _
  · rfl
  · exact positions_creditMember _ _ _ _
  · rfl

theorem positions_refundOrder (l? : Option Nat) (s : St) (o : Order) :
    (refundOrder l? s o).positions = s.positions := by
  unfold refundOrder
  dsimp only
  rw [positions_deleteOrder, positions_creditMember]

theorem positions_settleMarket (st : St) (mid : Nat) (oc : Side) (l? : Option Nat) :
    (settleMarket st mid oc l?).positions = st.positions := by
  unfold settleMarket
  rw [foldl_field_eq (refundOrder l?) (fun s => s.positions) (positions_refundOrder l?),
    foldl_field_eq (payoutPosition oc l?) (fun s => s.positions) (positions_payoutPosition oc l?)]

theorem positions_refundStakes (st : St) (votes : List VoteRow) (choice : Side)
    (l? : Option Nat) :
    (refundStakes st votes choice l?).positions = st.positions := by
  unfold refundStakes
  refine foldl_field_eq _ (fun s => s.positions) (fun s v => ?h) votes st
  dsimp only
  split
  · exact positions_creditMember _ _ _ _
  · rfl

/-- C8 amended: the resolve-market handler never writes the positions table —
settlement credits payouts to league balances but leaves every position row
exactly as it was (no zeroing), on every path including errors. -/
theorem resolveMarket_preserves_positions (st : St) (req : ResolveRequest) :
    ((resolveMarket st req).1).positions = st.positions := by
  unfold resolveMarket
  cases hm : findMarket st req.marketId with
  | none => rfl
  | some market =>
    cases req.adminUserId with
    | some adminId =>
      cases ha : st.admins.contains adminId with
      | false => simp only [ha, Bool.not_false, if_true]
      | true =>
        simp only [ha, Bool.not_true, Bool.false_eq_true, if_false]
        exact positions_settleMarket _ _ _ _
    | none =>
      cases hs : market.status != MarketStatus.VOTING with
      | true => simp only [hs, if_true]
      | false =>
        simp only [hs, Bool.false_eq_true, if_false]
        cases he : (votesOf st req.marketId).isEmpty with
        | true => simp only [he, if_true]
        | false =>
          simp only [he, Bool.false_eq_true, if_false]
          cases hv : ((stakeholdersOf st req.marketId).all (fun p =>
              ((votesOf st req.marketId).map (fun v => v.userId)).contains p.userId)) with
          | false => simp only [hv, Bool.not_false, if_true]
          | true =>
            simp only [hv, Bool.not_true, Bool.false_eq_true, if_false]
            by_cases hp : yesPercentage st (votesOf st req.marketId)
                (st.votingSettings.getD defaultSettings) ≤ 50
            · simp only [hp, if_true]
              exact positions_refundStakes _ _ _ _
            · simp only [hp, if_false]
              rw [positions_settleMarket, positions_refundStakes]

theorem members_updateMemberBalance_eq (st : St) (l u : Nat) (b : Int) :
    (updateMemberBalance st l u b).orders = st.orders ∧
    (updateMemberBalance st l u b).markets = st.markets ∧
    (updateMemberBalance st l u b).trades = st.trades ∧
    (updateMemberBalance st l u b).positions = st.positions ∧
    (updateMemberBalance st l u b).nextOrderId = st.nextOrderId := by
  exact ⟨rfl, rfl, rfl, rfl, rfl⟩

theorem trades_creditMember (st : St) (l? : Option Nat) (u : Nat) (a : Int) :
    (creditMember st l? u a).trades = st.trades := by
  cases l? with
  | none => rfl
  | some l => cases hf : findMember st l u <;> simp [creditMember, hf, updateMemberBalance]

theorem orders_creditMember (st : St) (l? : Option Nat) (u : Nat) (a : Int) :
    (creditMember st l? u a).orders = st.orders := by
  cases l? with
  | none => rfl
  | some l => cases hf : findMember st l u <;> simp [creditMember, hf, updateMemberBalance]

theorem nextOrderId_creditMember (st : St) (l? : Option Nat) (u : Nat) (a : Int) :
    (creditMember st l? u a).nextOrderId = st.nextOrderId := by
  cases l? with
  | none => rfl
  | some l => cases hf : findMember st l u <;> simp [creditMember, hf, updateMemberBalance]

theorem trades_addYesShares (st : St) (m u : Nat) (q : Int) :
    (addYesShares st m u q).trades = st.trades := by
  unfold addYesShares
  cases findPosition st m u <;> rfl

theorem trades_addNoShares (st : St) (m u : Nat) (q : Int) :
    (addNoShares st m u q).trades = st.trades := by
  unfold addNoShares
  cases findPosition st m u <;> rfl

theorem nextOrderId_addYesShares (st : St) (m u : Nat) (q : Int) :
    (addYesShares st m u q).nextOrderId = st.nextOrderId := by
  unfold addYesShares
  cases findPosition st m u <;> rfl

theorem nextOrderId_addNoShares (st : St) (m u : Nat) (q : Int) :
    (addNoShares st m u q).nextOrderId = st.nextOrderId := by
  unfold addNoShares
  cases findPosition st m u <;> rfl

theorem findMember_members_congr (st1 st2 : St) (h : st1.members = st2.members) (l u : Nat) :
    findMember st1 l u = findMember st2 l u := by
  unfold findMember
  rw [h]

theorem members_creditMember_congr (st1 st2 : St) (h : st1.members = st2.members)
    (l? : Option Nat) (u : Nat) (a : Int) :
    (creditMember st1 l? u a).members = (creditMember st2 l? u a).members := by
  cases l? with
  | none => exact h
  | some l =>
    simp only [creditMember]
    rw [findMember_members_congr st1 st2 h l u]
    cases hf2 : findMember st2 l u with
    | none => exact h
    | some m =>
      simp only [updateMemberBalance]
      rw [h]

/-- The members table after one match execution: the direct-transfer pass
credits the matched order's owner their sale proceeds; the mint pass leaves
balances untouched. -/
theorem members_execMatch (mid uid : Nat) (side : Side) (price : Int)
    (l? : Option Nat) (s : St) (m : MatchResult) :
    (execMatch mid uid side price l? s m).members =
      (if m.isContractTransfer then
        creditMember s l? m.orderUserId
          (if side == Side.YES then price * m.fillQuantity
           else (100 - price) * m.fillQuantity)
      else s).members := by
  unfold execMatch
  dsimp only
  split
  case isTrue hrem =>
    rw [members_deleteOrder]
    split
    case isTrue ht =>
      split
      case isTrue hside =>
        rw [members_addYesShares]
        exact members_creditMember_congr _ s (by rfl) _ _ _
      case isFalse hside =>
        rw [members_addNoShares]
        exact members_creditMember_congr _ s (by rfl) _ _ _
    case isFalse ht =>
      rw [members_addNoShares, members_addYesShares]
  case isFalse hrem =>
    rw [members_setOrderRemaining]
    split
    case isTrue ht =>
      split
      case isTrue hside =>
        rw [members_addYesShares]
        exact members_creditMember_congr _ s (by rfl) _ _ _
      case isFalse hside =>
        rw [members_addNoShares]
        exact members_creditMember_congr _ s (by rfl) _ _ _
    case isFalse ht =>
      rw [members_addNoShares, members_addYesShares]

/-- Per-user balance preservation by one match execution: the only balance
credit in `execMatch` goes to the matched resting order's owner. -/
theorem memberBalance_execMatch (mid uid : Nat) (side : Side) (price : Int)
    (l? : Option Nat) (s : St) (m : MatchResult) (l2 u : Nat)
    (hu : u ≠ m.orderUserId) :
    memberBalance (execMatch mid uid side price l? s m) l2 u = memberBalance s l2 u := by
  rw [memberBalance_congr _ _ (members_execMatch mid uid side price l? s m) l2 u]
  split
  · exact memberBalance_creditMember_other _ _ _ _ _ _ hu
  · rfl

/-- Per-user balance preservation by the whole match-execution fold. -/
theorem memberBalance_applyMatches (mid uid : Nat) (side : Side) (price : Int)
    (l? : Option Nat) (ms : List MatchResult) (s : St) (l2 u : Nat)
    (hu : ∀ mm ∈ ms, u ≠ mm.orderUserId) :
    memberBalance (applyMatches mid uid side price l? s ms) l2 u = memberBalance s l2 u := by
  induction ms generalizing s with
  | nil => rfl
  | cons mm ms ih =>
    unfold applyMatches
    rw [List.foldl_cons]
    have h1 := ih (execMatch mid uid side price l? s mm)
      (fun x hx => hu x (List.mem_cons_of_mem _ hx))
    unfold applyMatches at h1
    rw [h1, memberBalance_execMatch _ _ _ _ _ _ _ _ _ (hu mm (List.mem_cons_self _ _))]

/-! ### Provenance of matches -/

theorem matchPass_orderUserId (b : Bool) (os : List Order) (q : Int) :
    ∀ mm ∈ (matchPass b os q).1, ∃ o ∈ os, mm.orderUserId = o.userId := by
  induction os generalizing q with
  | nil => intro mm h; simp [matchPass] at h
  | cons o os ih =>
    intro mm h
    unfold matchPass at h
    by_cases hq : q = 0
    · simp [hq] at h
    · simp only [if_neg hq] at h
      rcases List.mem_cons.mp h with heq | h2
      · exact ⟨o, List.mem_cons_self _ _, by rw [heq]⟩
      · rcases ih _ mm h2 with ⟨o2, ho2, he2⟩
        exact ⟨o2, List.mem_cons_of_mem _ ho2, he2⟩

theorem mem_insertByCreated (o x : Order) (l : List Order) :
    o ∈ insertByCreated x l ↔ o = x ∨ o ∈ l := by
  induction l with
  | nil => simp [insertByCreated]
  | cons y l ih =>
    unfold insertByCreated
    split
    · simp [List.mem_cons]
    · simp only [List.mem_cons, ih]
      tauto

theorem mem_sortByCreated (o : Order) (l : List Order) :
    o ∈ sortByCreated l ↔ o ∈ l := by
  induction l with
  | nil => simp [sortByCreated]
  | cons x l ih =>
    unfold sortByCreated
    rw [mem_insertByCreated, ih, List.mem_cons]

theorem eligibleSellOrders_userId_ne (st : St) (mid : Nat) (side : Side) (price : Int)
    (u : Nat) : ∀ o ∈ eligibleSellOrders st mid side price u, o.userId ≠ u := by
  intro o ho
  unfold eligibleSellOrders at ho
  rw [mem_sortByCreated] at ho
  have hp := List.of_mem_filter ho
  simp only [Bool.and_eq_true, bne_iff_ne] at hp
  exact hp.2

theorem eligibleBuyOrders_userId_ne (st : St) (mid : Nat) (side : Side) (price : Int)
    (u : Nat) : ∀ o ∈ eligibleBuyOrders st mid side price u, o.userId ≠ u := by
  intro o ho
  unfold eligibleBuyOrders at ho
  rw [mem_sortByCreated] at ho
  have hp := List.of_mem_filter ho
  simp only [Bool.and_eq_true, bne_iff_ne] at hp
  exact hp.2

/-- Every match the place-order handler computes comes from a resting order
owned by someone else: both candidate queries exclude the acting user. -/
theorem placeOrderMatches_ne_user (ctx : OrderCtx) (req : PlaceOrderRequest) :
    ∀ mm ∈ (placeOrderMatches ctx req).1, mm.orderUserId ≠ req.userId := by
  intro mm h
  unfold placeOrderMatches at h
  dsimp only at h
  rw [List.mem_append] at h
  rcases h with h | h
  · rcases matchPass_orderUserId _ _ _ mm h with ⟨o, ho, he⟩
    rw [he]
    exact eligibleSellOrders_userId_ne _ _ _ _ _ o ho
  · rcases matchPass_orderUserId _ _ _ mm h with ⟨o, ho, he⟩
    rw [he]
    exact eligibleBuyOrders_userId_ne _ _ _ _ _ o ho

theorem sellMatchLoop_buyer (os : List Order) (q : Int) :
    ∀ t ∈ (sellMatchLoop os q).1, ∃ o ∈ os, t.1 = o.userId := by
  induction os generalizing q with
  | nil => intro t h; simp [sellMatchLoop] at h
  | cons o os ih =>
    intro t h
    unfold sellMatchLoop at h
    by_cases hq : q = 0
    · simp [hq] at h
    · simp only [if_neg hq] at h
      rcases List.mem_cons.mp h with heq | h2
      · exact ⟨o, List.mem_cons_self _ _, by rw [heq]⟩
      · rcases ih _ t h2 with ⟨o2, ho2, he2⟩
        exact ⟨o2, List.mem_cons_of_mem _ ho2, he2⟩

/-- Inversion of the checked prefix of the place-order handler: a
successful preparation implies the gate passed, the inputs were valid, the
market is OPEN, and the produced context is either the admin context (no
debit) or the debited non-admin context. -/
theorem placeOrderPrep_ok_inv (st : St) (req : PlaceOrderRequest) (ctx : OrderCtx)
    (hprep : placeOrderPrep st req = Except.ok ctx) :
    hasUnvotedVotingMarket st req.userId = false ∧
    1 ≤ req.quantity ∧ 1 ≤ req.price ∧ req.price ≤ 99 ∧
    ∃ market, findMarket st req.marketId = some market ∧
      market.status = MarketStatus.OPEN ∧
      ((st.admins.contains req.userId = true ∧
         ctx = { st := st, isAdmin := true,
                 effLeague := req.leagueId.or market.leagueId }) ∨
       (st.admins.contains req.userId = false ∧
        ∃ l mem, req.leagueId.or market.leagueId = some l ∧
          findMember st l req.userId = some mem ∧
          ¬ mem.tokenBalance <
            (if req.side == Side.YES then req.price else 100 - req.price) * req.quantity ∧
          ctx = { st := updateMemberBalance st l req.userId
                    (mem.tokenBalance -
                      (if req.side == Side.YES then req.price else 100 - req.price) *
                        req.quantity),
                  isAdmin := false, effLeague := some l })) := by
  unfold placeOrderPrep at hprep
  by_cases hg : hasUnvotedVotingMarket st req.userId
  · rw [if_pos hg] at hprep; simp at hprep
  · rw [if_neg hg] at hprep
    by_cases hz : req.price = 0 ∨ req.quantity = 0
    · rw [if_pos hz] at hprep; simp at hprep
    · rw [if_neg hz] at hprep
      by_cases hpr : req.price < 1 ∨ 99 < req.price
      · rw [if_pos hpr] at hprep; simp at hprep
      · rw [if_neg hpr] at hprep
        by_cases hq : req.quantity < 1
        · rw [if_pos hq] at hprep; simp at hprep
        · rw [if_neg hq] at hprep
          push_neg at hpr
          cases hmk : findMarket st req.marketId with
          | none => rw [hmk] at hprep; simp at hprep
          | some market =>
            rw [hmk] at hprep
            dsimp only at hprep
            by_cases hst : market.status != MarketStatus.OPEN
            · rw [if_pos hst] at hprep; simp at hprep
            · rw [if_neg hst] at hprep
              have hopen : market.status = MarketStatus.OPEN := by
                simpa using hst
              refine ⟨eq_false_of_ne_true hg, by omega, hpr.1, hpr.2, market, rfl, hopen, ?h⟩
              cases hrl : req.leagueId with
              | some l2 =>
                rw [hrl] at hprep
                dsimp only at hprep
                cases ha : st.admins.contains req.userId with
                | true =>
                  rw [ha, if_pos rfl] at hprep
                  exact Or.inl ⟨rfl, ((Except.ok.injEq _ _).mp hprep).symm⟩
                | false =>
                  rw [ha] at hprep
                  simp only [Bool.false_eq_true, if_false] at hprep
                  cases hmem : findMember st l2 req.userId with
                  | none => rw [hmem] at hprep; simp at hprep
                  | some mem =>
                    rw [hmem] at hprep
                    dsimp only at hprep
                    by_cases hbal : mem.tokenBalance <
                        (if req.side == Side.YES then req.price else 100 - req.price) *
                          req.quantity
                    · rw [if_pos hbal] at hprep; simp at hprep
                    · rw [if_neg hbal] at hprep
                      exact Or.inr ⟨rfl, l2, mem, rfl, hmem, hbal,
                        ((Except.ok.injEq _ _).mp hprep).symm⟩
              | none =>
                rw [hrl] at hprep
                dsimp only at hprep
                cases hml : market.leagueId with
                | none =>
                  rw [hml] at hprep
                  dsimp only at hprep
                  cases ha : st.admins.contains req.userId with
                  | true =>
                    rw [ha, if_pos rfl] at hprep
                    exact Or.inl ⟨rfl, ((Except.ok.injEq _ _).mp hprep).symm⟩
                  | false =>
                    rw [ha] at hprep
                    simp only [Bool.false_eq_true, if_false] at hprep
                    simp at hprep
                | some l =>
                  rw [hml] at hprep
                  dsimp only at hprep
                  cases ha : st.admins.contains req.userId with
                  | true =>
                    rw [ha, if_pos rfl] at hprep
                    exact Or.inl ⟨rfl, ((Except.ok.injEq _ _).mp hprep).symm⟩
                  | false =>
                    rw [ha] at hprep
                    simp only [Bool.false_eq_true, if_false] at hprep
                    cases hmem : findMember st l req.userId with
                    | none => rw [hmem] at hprep; simp at hprep
                    | some mem =>
                      rw [hmem] at hprep
                      dsimp only at hprep
                      by_cases hbal : mem.tokenBalance <
                          (if req.side == Side.YES then req.price else 100 - req.price) *
                            req.quantity
                      · rw [if_pos hbal] at hprep; simp at hprep
                      · rw [if_neg hbal] at hprep
                        exact Or.inr ⟨rfl, l, mem, rfl, hmem, hbal,
                          ((Except.ok.injEq _ _).mp hprep).symm⟩

/-- Balance of the acting user is untouched by the whole matching phase:
every credit goes to a matched counterparty, who is never the acting user. -/
theorem memberBalance_matchPhase_user (ctx : OrderCtx) (req : PlaceOrderRequest) (l2 : Nat) :
    memberBalance (placeOrderMatchPhase ctx req).1 l2 req.userId =
      memberBalance ctx.st l2 req.userId := by
  unfold placeOrderMatchPhase
  dsimp only
  have hu : ∀ mm ∈ (placeOrderMatches ctx req).1, req.userId ≠ mm.orderUserId :=
    fun mm hmm => Ne.symm (placeOrderMatches_ne_user ctx req mm hmm)
  split
  · rw [memberBalance_congr _ _
      (members_insertRestingOrder _ _ _ _ _ _ _ _) l2 req.userId]
    exact memberBalance_applyMatches _ _ _ _ _ _ _ _ _ hu
  · exact memberBalance_applyMatches _ _ _ _ _ _ _ _ _ hu

/-- The price-implied cost of a buy order, as the handler computes it. -/
def costOf (req : PlaceOrderRequest) : Int :=
  (if req.side == Side.YES then req.price else 100 - req.price) * req.quantity

/-- C10: a successful buy-order placement by an admin performs no debit at
all: the checked prefix skips the debit entirely, and the matching phase only
ever credits matched counterparties (never the acting user), so the admin's
balance in every league is unchanged — whatever matches or rests. -/
theorem placeOrder_admin_no_debit (st : St) (req : PlaceOrderRequest)
    (hadmin : st.admins.contains req.userId = true) :
    ∀ l, memberBalance (placeOrder st req).1 l req.userId = memberBalance st l req.userId := by
  intro l
  unfold placeOrder
  cases hprep : placeOrderPrep st req with
  | error e => rfl
  | ok ctx =>
    dsimp only
    rcases placeOrderPrep_ok_inv st req ctx hprep with ⟨-, -, -, -, market, -, -, hcase⟩
    rcases hcase with ⟨-, hctx⟩ | ⟨hfalse, -⟩
    · rw [memberBalance_matchPhase_user, hctx]
    · rw [hadmin] at hfalse
      cases hfalse


/-- C3: a successful non-admin buy-order placement debits the user's league
balance by exactly price*quantity for a YES order and (100-price)*quantity
for a NO order, in full, before the matching phase runs; the matching phase
leaves the user's balance where the debit put it. -/
theorem placeOrder_escrow_debit_before_match (st : St) (req : PlaceOrderRequest)
    (ctx : OrderCtx) (hadmin : st.admins.contains req.userId = false)
    (hprep : placeOrderPrep st req = Except.ok ctx) :
    (req.side = Side.YES → costOf req = req.price * req.quantity) ∧
    (req.side = Side.NO → costOf req = (100 - req.price) * req.quantity) ∧
    ∃ l mem, ctx.effLeague = some l ∧ findMember st l req.userId = some mem ∧
      memberBalance st l req.userId = mem.tokenBalance ∧
      ctx.st = updateMemberBalance st l req.userId (mem.tokenBalance - costOf req) ∧
      memberBalance ctx.st l req.userId = memberBalance st l req.userId - costOf req ∧
      placeOrder st req =
        ((placeOrderMatchPhase ctx req).1, Except.ok (placeOrderMatchPhase ctx req).2) ∧
      memberBalance (placeOrder st req).1 l req.userId =
        memberBalance st l req.userId - costOf req := by
  refine ⟨fun hs => by simp [costOf, hs], fun hs => by simp [costOf, hs], ?e⟩
  rcases placeOrderPrep_ok_inv st req ctx hprep with ⟨-, -, -, -, market, -, -, hcase⟩
  rcases hcase with ⟨htrue, -⟩ | ⟨-, l, mem, heff, hmem, hbal, hctx⟩
  · rw [hadmin] at htrue
    cases htrue
  · have hbal0 : memberBalance st l req.userId = mem.tokenBalance := by
      unfold memberBalance
      rw [hmem]
    have hplace : placeOrder st req =
        ((placeOrderMatchPhase ctx req).1, Except.ok (placeOrderMatchPhase ctx req).2) := by
      unfold placeOrder
      rw [hprep]
    have hctxst : ctx.st = updateMemberBalance st l req.userId
        (mem.tokenBalance - costOf req) := by
      simp only [costOf]
      rw [hctx]
    have hctxbal : memberBalance ctx.st l req.userId =
        memberBalance st l req.userId - costOf req := by
      rw [hctxst, hbal0]
      exact memberBalance_update_self _ _ _ _ _ hmem
    refine ⟨l, mem, by rw [hctx], hmem, hbal0, hctxst, hctxbal, hplace, ?f⟩
    rw [hplace]
    dsimp only
    rw [memberBalance_matchPhase_user, hctxbal]

/-! ### The spec-side description of the two-pass matching algorithm -/

/-- Modelled from the spec: walk candidates in order, filling each candidate
by min(remaining incoming quantity, candidate's remaining quantity) until the
incoming quantity is exhausted or candidates run out.  Returns the (candidate,
fill) pairs and the unfilled leftover. -/
def specWalk : List Order → Int → List (Order × Int) × Int
  | [], q => ([], q)
  | o :: os, q =>
    if q = 0 then ([], q)
    else
      let fill := min q o.remainingQuantity
      let r := specWalk os (q - fill)
      ((o, fill) :: r.1, r.2)

/-- Modelled from the spec: for a buy of side S at price P — pass 1 walks
resting sell orders of side S at exactly price P, pass 2 walks resting buy
(mint) orders of the opposite side at exactly price 100-P, both restricted to
this market, positive remaining quantity, not the acting user's own orders,
in ascending creation time.  Returns (pass-1 fills, pass-2 fills, leftover). -/
def specMatchPlan (book : List Order) (marketId userId : Nat) (side : Side)
    (price quantity : Int) : List (Order × Int) × List (Order × Int) × Int :=
  let sameSideSells := sortByCreated (book.filter (fun o =>
    o.marketId == marketId && o.side == side && o.price == price &&
    o.isSellOrder && decide (0 < o.remainingQuantity) && o.userId != userId))
  let oppositeMints := sortByCreated (book.filter (fun o =>
    o.marketId == marketId && o.side == oppositeSide side && o.price == 100 - price &&
    !o.isSellOrder && decide (0 < o.remainingQuantity) && o.userId != userId))
  let w1 := specWalk sameSideSells quantity
  let w2 := specWalk oppositeMints w1.2
  (w1.1, w2.1, w2.2)

/-- The match record the handler builds for one planned fill. -/
def matchOfFill (b : Bool) (f : Order × Int) : MatchResult :=
  { orderId := f.1.id, orderUserId := f.1.userId, fillQuantity := f.2,
    isContractTransfer := b, originalRemaining := f.1.remainingQuantity }

theorem matchPass_eq_specWalk (b : Bool) (os : List Order) (q : Int) :
    matchPass b os q = ((specWalk os q).1.map (matchOfFill b), (specWalk os q).2) := by
  induction os generalizing q with
  | nil => simp [matchPass, specWalk]
  | cons o os ih =>
    unfold matchPass specWalk
    by_cases hq : q = 0
    · simp [hq]
    · simp only [if_neg hq]
      rw [ih]
      simp [matchOfFill]

theorem specWalk_zero (os : List Order) : specWalk os 0 = ([], 0) := by
  cases os <;> simp [specWalk]

theorem specWalk_first_covers (A : Order) (rest : List Order) (q : Int)
    (hq0 : q ≠ 0) (hlt : q < A.remainingQuantity) :
    specWalk (A :: rest) q = ([(A, q)], 0) := by
  unfold specWalk
  rw [if_neg hq0, min_eq_left (le_of_lt hlt)]
  simp [specWalk_zero]

theorem nextOrderId_deleteOrder (st : St) (oid : Nat) :
    (deleteOrder st oid).nextOrderId = st.nextOrderId := rfl

theorem nextOrderId_setOrderRemaining (st : St) (oid : Nat) (r : Int) :
    (setOrderRemaining st oid r).nextOrderId = st.nextOrderId := rfl

theorem nextOrderId_execMatch (mid uid : Nat) (side : Side) (price : Int)
    (l? : Option Nat) (s : St) (m : MatchResult) :
    (execMatch mid uid side price l? s m).nextOrderId = s.nextOrderId := by
  unfold execMatch
  dsimp only
  split <;> split
  · split <;>
      simp only [nextOrderId_deleteOrder, nextOrderId_addYesShares, nextOrderId_addNoShares,
        nextOrderId_creditMember]
  · simp only [nextOrderId_deleteOrder, nextOrderId_addYesShares, nextOrderId_addNoShares]
  · split <;>
      simp only [nextOrderId_setOrderRemaining, nextOrderId_addYesShares,
        nextOrderId_addNoShares, nextOrderId_creditMember]
  · simp only [nextOrderId_setOrderRemaining, nextOrderId_addYesShares, nextOrderId_addNoShares]

theorem nextOrderId_applyMatches (mid uid : Nat) (side : Side) (price : Int)
    (l? : Option Nat) (ms : List MatchResult) (s : St) :
    (applyMatches mid uid side price l? s ms).nextOrderId = s.nextOrderId := by
  unfold applyMatches
  exact foldl_field_eq _ (fun s => s.nextOrderId)
    (fun s x => nextOrderId_execMatch mid uid side price l? s x) ms s

/-- C2: the place-order matching realizes the spec's two-pass plan — the
match list is exactly the pass-1 fills (as direct transfers) followed by the
pass-2 fills (as mints), the reported matched/remaining counts and trade
count agree with the plan, an unfilled leftover rests as a new non-sell
order whose remaining quantity is the leftover, and an incoming order
smaller than the oldest same-price sell candidate's remaining quantity fills
only against that candidate. -/
theorem placeOrder_matching_follows_spec (st : St) (req : PlaceOrderRequest)
    (ctx : OrderCtx) (hprep : placeOrderPrep st req = Except.ok ctx) :
    let plan := specMatchPlan ctx.st.orders req.marketId req.userId req.side req.price
      req.quantity
    (placeOrderMatches ctx req =
      (plan.1.map (matchOfFill true) ++ plan.2.1.map (matchOfFill false), plan.2.2)) ∧
    (placeOrder st req).2 = Except.ok
      { matched := req.quantity - plan.2.2, remaining := plan.2.2,
        tradesCount := plan.1.length + plan.2.1.length } ∧
    (0 < plan.2.2 →
      (placeOrder st req).1.orders.getLast? = some
        { id := ctx.st.nextOrderId, marketId := req.marketId, userId := req.userId,
          side := req.side, price := req.price, quantity := req.quantity,
          remainingQuantity := plan.2.2, isSellOrder := false,
          createdAt := ctx.st.nextOrderId }) ∧
    (∀ A rest,
      eligibleSellOrders ctx.st req.marketId req.side req.price req.userId = A :: rest →
      req.quantity < A.remainingQuantity →
      placeOrderMatches ctx req =
        ([{ orderId := A.id, orderUserId := A.userId, fillQuantity := req.quantity,
            isContractTransfer := true, originalRemaining := A.remainingQuantity }], 0)) := by
  intro plan
  unfold plan
  have hq1 : 1 ≤ req.quantity := (placeOrderPrep_ok_inv st req ctx hprep).2.1
  have hplace : placeOrder st req =
      ((placeOrderMatchPhase ctx req).1, Except.ok (placeOrderMatchPhase ctx req).2) := by
    unfold placeOrder
    rw [hprep]
  have hmatches : placeOrderMatches ctx req =
      ((specMatchPlan ctx.st.orders req.marketId req.userId req.side req.price
          req.quantity).1.map (matchOfFill true) ++
        (specMatchPlan ctx.st.orders req.marketId req.userId req.side req.price
          req.quantity).2.1.map (matchOfFill false),
       (specMatchPlan ctx.st.orders req.marketId req.userId req.side req.price
          req.quantity).2.2) := by
    unfold placeOrderMatches specMatchPlan eligibleSellOrders eligibleBuyOrders
    dsimp only
    rw [matchPass_eq_specWalk, matchPass_eq_specWalk]
  refine ⟨hmatches, ?counts, ?rest, ?fifo⟩
  case counts =>
    rw [hplace]
    dsimp only
    unfold placeOrderMatchPhase
    rw [hmatches]
    dsimp only
    simp [List.length_append]
  case rest =>
    intro hpos
    rw [hplace]
    dsimp only
    unfold placeOrderMatchPhase
    rw [hmatches]
    dsimp only
    rw [if_pos hpos]
    unfold insertRestingOrder
    dsimp only
    rw [List.getLast?_concat]
    rw [nextOrderId_applyMatches]
  case fifo =>
    intro A rest hsells hlt
    have hq0 : req.quantity ≠ 0 := by omega
    unfold placeOrderMatches
    dsimp only
    rw [matchPass_eq_specWalk, matchPass_eq_specWalk, hsells,
      specWalk_first_covers A rest req.quantity hq0 hlt]
    simp [matchOfFill, specWalk_zero]

/-! ### Trade records produced by the handlers -/

/-- The trade the place-order handler inserts for one match: participants
are the incoming user and the matched order's owner, quantity is the fill;
the price is the raw incoming price for a direct transfer, and the
YES-normalized price for a mint. -/
def tradeOfMatch (mid uid : Nat) (side : Side) (price : Int) (m : MatchResult) : Trade :=
  { marketId := mid,
    yesUserId := if side == Side.YES then uid else m.orderUserId,
    noUserId := if side == Side.NO then uid else m.orderUserId,
    price := if m.isContractTransfer then price
             else if side == Side.YES then price else 100 - price,
    quantity := m.fillQuantity }

theorem trades_deleteOrder (st : St) (oid : Nat) :
    (deleteOrder st oid).trades = st.trades := rfl

theorem trades_setOrderRemaining (st : St) (oid : Nat) (r : Int) :
    (setOrderRemaining st oid r).trades = st.trades := rfl

theorem trades_updatePositionRow (st : St) (pid : Nat) (f : Position → Position) :
    (updatePositionRow st pid f).trades = st.trades := rfl

theorem trades_insertRestingOrder (st : St) (m u : Nat) (sd : Side) (p q r : Int) (b : Bool) :
    (insertRestingOrder st m u sd p q r b).trades = st.trades := rfl

theorem trades_execMatch (mid uid : Nat) (side : Side) (price : Int)
    (l? : Option Nat) (s : St) (m : MatchResult) :
    (execMatch mid uid side price l? s m).trades =
      s.trades ++ [tradeOfMatch mid uid side price m] := by
  unfold execMatch tradeOfMatch
  dsimp only
  split <;> split
  · split <;>
      simp only [trades_deleteOrder, trades_addYesShares, trades_addNoShares,
        trades_creditMember]
  · simp only [trades_deleteOrder, trades_addYesShares, trades_addNoShares]
  · split <;>
      simp only [trades_setOrderRemaining, trades_addYesShares, trades_addNoShares,
        trades_creditMember]
  · simp only [trades_setOrderRemaining, trades_addYesShares, trades_addNoShares]

theorem trades_applyMatches (mid uid : Nat) (side : Side) (price : Int)
    (l? : Option Nat) (ms : List MatchResult) (s : St) :
    (applyMatches mid uid side price l? s ms).trades =
      s.trades ++ ms.map (tradeOfMatch mid uid side price) := by
  induction ms generalizing s with
  | nil => simp [applyMatches]
  | cons mm ms ih =>
    unfold applyMatches
    rw [List.foldl_cons]
    have h1 := ih (execMatch mid uid side price l? s mm)
    unfold applyMatches at h1
    rw [h1, trades_execMatch]
    simp

/-- Frame facts of a successful place-order preparation: the debit touches
only member balances. -/
theorem placeOrderPrep_ok_frames (st : St) (req : PlaceOrderRequest) (ctx : OrderCtx)
    (hprep : placeOrderPrep st req = Except.ok ctx) :
    ctx.st.orders = st.orders ∧ ctx.st.trades = st.trades ∧
    ctx.st.nextOrderId = st.nextOrderId := by
  rcases placeOrderPrep_ok_inv st req ctx hprep with ⟨-, -, -, -, market, -, -, hcase⟩
  rcases hcase with ⟨-, hctx⟩ | ⟨-, l, mem, -, -, -, hctx⟩ <;> rw [hctx] <;>
    exact ⟨rfl, rfl, rfl⟩

/-- Trades of a successful buy placement: the prior trades plus one
`tradeOfMatch` record per computed match. -/
theorem placeOrder_trades_eq (st : St) (req : PlaceOrderRequest) (ctx : OrderCtx)
    (hprep : placeOrderPrep st req = Except.ok ctx) :
    (placeOrder st req).1.trades = st.trades ++
      (placeOrderMatches ctx req).1.map
        (tradeOfMatch req.marketId req.userId req.side req.price) := by
  have hplace : placeOrder st req =
      ((placeOrderMatchPhase ctx req).1, Except.ok (placeOrderMatchPhase ctx req).2) := by
    unfold placeOrder
    rw [hprep]
  rw [hplace]
  dsimp only
  unfold placeOrderMatchPhase
  dsimp only
  rw [← (placeOrderPrep_ok_frames st req ctx hprep).2.1]
  split
  · rw [trades_insertRestingOrder, trades_applyMatches]
  · rw [trades_applyMatches]

/-- C5 amended: every trade inserted by a successful buy placement is as
`tradeOfMatch` describes — mint-pass trades are recorded at the
probability-implied YES price (price for a YES incoming order, 100-price for
a NO incoming order), while direct-transfer trades are recorded at the
incoming order's raw nominal price, which is the YES-implied price only when
the incoming side is YES. -/
theorem placeOrder_trade_prices (st : St) (req : PlaceOrderRequest) (ctx : OrderCtx)
    (hprep : placeOrderPrep st req = Except.ok ctx) :
    (placeOrder st req).1.trades = st.trades ++
      (placeOrderMatches ctx req).1.map
        (tradeOfMatch req.marketId req.userId req.side req.price) ∧
    (∀ m : MatchResult, m.isContractTransfer = false →
      (tradeOfMatch req.marketId req.userId req.side req.price m).price =
        (if req.side == Side.YES then req.price else 100 - req.price)) ∧
    (∀ m : MatchResult, m.isContractTransfer = true →
      (tradeOfMatch req.marketId req.userId req.side req.price m).price = req.price) :=
  ⟨placeOrder_trades_eq st req ctx hprep,
   fun m hm => by simp [tradeOfMatch, hm], fun m hm => by simp [tradeOfMatch, hm]⟩

/-- The trade the sell-position handler inserts for one fill: buyer and
seller on the respective sides, at the raw request price. -/
def sellTradeOf (mid uid : Nat) (sideToSell : Side) (price : Int) (t : Nat × Int) : Trade :=
  { marketId := mid,
    yesUserId := if sideToSell == Side.YES then t.1 else uid,
    noUserId := if sideToSell == Side.NO then t.1 else uid,
    price := price, quantity := t.2 }

theorem trades_execSellTrade (mid uid : Nat) (sideToSell : Side) (price : Int)
    (l? : Option Nat) (s : St) (t : Nat × Int) :
    (execSellTrade mid uid sideToSell price l? s t).trades =
      s.trades ++ [sellTradeOf mid uid sideToSell price t] := by
  unfold execSellTrade sellTradeOf
  dsimp only
  split <;>
    simp only [trades_addYesShares, trades_addNoShares, trades_creditMember]

theorem trades_sellFold (mid uid : Nat) (sideToSell : Side) (price : Int)
    (l? : Option Nat) (fills : List (Nat × Int)) (s : St) :
    (fills.foldl (execSellTrade mid uid sideToSell price l?) s).trades =
      s.trades ++ fills.map (sellTradeOf mid uid sideToSell price) := by
  induction fills generalizing s with
  | nil => simp
  | cons f fills ih =>
    rw [List.foldl_cons, ih, trades_execSellTrade]
    simp

theorem trades_applySellOrderUpdate (s : St) (u : Nat × Int) :
    (applySellOrderUpdate s u).trades = s.trades := by
  unfold applySellOrderUpdate
  split <;> rfl

theorem trades_sellUpdatesFold (us : List (Nat × Int)) (s : St) :
    (us.foldl applySellOrderUpdate s).trades = s.trades :=
  foldl_field_eq _ (fun s => s.trades) trades_applySellOrderUpdate us s

/-- Trades of the sell matching phase: the escrowed store's trades plus one
`sellTradeOf` record per fill. -/
theorem trades_sellMatchPhase (ctx : SellCtx) (req : SellRequest) :
    (sellMatchPhase ctx req).1.trades = ctx.st.trades ++
      (sellMatchLoop (eligibleBuyOrders ctx.st req.marketId req.sideToSell req.price
        req.userId) req.quantity).1.map
        (sellTradeOf req.marketId req.userId req.sideToSell req.price) := by
  unfold sellMatchPhase
  dsimp only
  split
  · rw [trades_insertRestingOrder, trades_sellUpdatesFold, trades_sellFold]
  · rw [trades_sellUpdatesFold, trades_sellFold]

/-- Frame facts of a successful sell-position preparation: the escrow touches
only the positions table. -/
theorem sellPositionPrep_ok_frames (st : St) (req : SellRequest) (ctx : SellCtx)
    (hprep : sellPositionPrep st req = Except.ok ctx) :
    ctx.st.orders = st.orders ∧ ctx.st.trades = st.trades ∧
    ctx.st.members = st.members := by
  unfold sellPositionPrep at hprep
  by_cases h1 : req.price = 0 ∨ req.quantity = 0
  · rw [if_pos h1] at hprep; simp at hprep
  · rw [if_neg h1] at hprep
    by_cases h2 : req.price < 1 ∨ 99 < req.price
    · rw [if_pos h2] at hprep; simp at hprep
    · rw [if_neg h2] at hprep
      cases hmk : findMarket st req.marketId with
      | none => rw [hmk] at hprep; simp at hprep
      | some market =>
        rw [hmk] at hprep
        dsimp only at hprep
        by_cases h3 : market.status != MarketStatus.OPEN
        · rw [if_pos h3] at hprep; simp at hprep
        · rw [if_neg h3] at hprep
          cases hpos : findPosition st req.marketId req.userId with
          | none => rw [hpos] at hprep; simp at hprep
          | some position =>
            rw [hpos] at hprep
            dsimp only at hprep
            by_cases h4 : (if req.sideToSell == Side.YES then position.yesShares
                else position.noShares) < req.quantity
            · rw [if_pos h4] at hprep; simp at hprep
            · rw [if_neg h4] at hprep
              have := ((Except.ok.injEq _ _).mp hprep).symm
              rw [this]
              exact ⟨rfl, rfl, rfl⟩

/-- C9: no user ever trades with themselves — the place-order match list
only contains orders of other users (both candidate queries exclude the
acting user), and every trade either handler records carries two distinct
participants. -/
theorem no_self_trade (st : St) (req : PlaceOrderRequest) (ctx : OrderCtx)
    (hprep : placeOrderPrep st req = Except.ok ctx)
    (st2 : St) (sreq : SellRequest) :
    (∀ mm ∈ (placeOrderMatches ctx req).1, mm.orderUserId ≠ req.userId) ∧
    (∀ t ∈ (placeOrder st req).1.trades, t ∈ st.trades ∨ t.yesUserId ≠ t.noUserId) ∧
    (∀ t ∈ (sellPosition st2 sreq).1.trades, t ∈ st2.trades ∨ t.yesUserId ≠ t.noUserId) := by
  refine ⟨placeOrderMatches_ne_user ctx req, ?buy, ?sell⟩
  case buy =>
    intro t ht
    rw [placeOrder_trades_eq st req ctx hprep] at ht
    rcases List.mem_append.mp ht with h | h
    · exact Or.inl h
    · rcases List.mem_map.mp h with ⟨mm, hmm, hteq⟩
      right
      rw [← hteq]
      have hne := placeOrderMatches_ne_user ctx req mm hmm
      unfold tradeOfMatch
      cases hside : req.side with
      | YES => simpa using Ne.symm hne
      | NO => simpa using hne
  case sell =>
    intro t ht
    unfold sellPosition at ht
    cases hprep2 : sellPositionPrep st2 sreq with
    | error e => rw [hprep2] at ht; exact Or.inl ht
    | ok sctx =>
      rw [hprep2] at ht
      dsimp only at ht
      rw [trades_sellMatchPhase, (sellPositionPrep_ok_frames st2 sreq sctx hprep2).2.1] at ht
      rcases List.mem_append.mp ht with h | h
      · exact Or.inl h
      · rcases List.mem_map.mp h with ⟨f, hf, hteq⟩
        right
        rw [← hteq]
        rcases sellMatchLoop_buyer _ _ f hf with ⟨o, ho, hfo⟩
        have hne : f.1 ≠ sreq.userId := by
          rw [hfo]
          exact eligibleBuyOrders_userId_ne _ _ _ _ _ o ho
        unfold sellTradeOf
        cases hside : sreq.sideToSell with
        | YES => simpa using hne
        | NO => simpa using Ne.symm hne

/-! ### The pending-vote gate -/

/-- The sell-position checked prefix can fail only with its own validation
errors, never with the pending-vote error — it performs no vote check. -/
theorem sellPositionPrep_no_pendingVotes (st : St) (req : SellRequest) :
    sellPositionPrep st req ≠ Except.error Err.pendingVotes := by
  intro hc
  unfold sellPositionPrep at hc
  by_cases h1 : req.price = 0 ∨ req.quantity = 0
  · rw [if_pos h1] at hc; simp at hc
  · rw [if_neg h1] at hc
    by_cases h2 : req.price < 1 ∨ 99 < req.price
    · rw [if_pos h2] at hc; simp at hc
    · rw [if_neg h2] at hc
      cases hmk : findMarket st req.marketId with
      | none => rw [hmk] at hc; simp at hc
      | some market =>
        rw [hmk] at hc
        dsimp only at hc
        by_cases h3 : market.status != MarketStatus.OPEN
        · rw [if_pos h3] at hc; simp at hc
        · rw [if_neg h3] at hc
          cases hpos : findPosition st req.marketId req.userId with
          | none => rw [hpos] at hc; simp at hc
          | some position =>
            rw [hpos] at hc
            dsimp only at hc
            by_cases h4 : (if req.sideToSell == Side.YES then position.yesShares
                else position.noShares) < req.quantity
            · rw [if_pos h4] at hc; simp at hc
            · rw [if_neg h4] at hc; simp at hc

/-- C6 amended: the pending-vote gate guards only buy-order placement — a
user with any unvoted VOTING market is rejected there with the pending-vote
error and the store is left untouched — while the sell-position handler
performs no pending-vote check at all and can never return that error. -/
theorem pending_vote_gate_buy_only :
    (∀ (st : St) (req : PlaceOrderRequest), hasUnvotedVotingMarket st req.userId = true →
      placeOrder st req = (st, Except.error Err.pendingVotes)) ∧
    (∀ (st : St) (req : SellRequest),
      (sellPosition st req).2 ≠ Except.error Err.pendingVotes) := by
  constructor
  · intro st req hg
    have hprep : placeOrderPrep st req = Except.error Err.pendingVotes := by
      unfold placeOrderPrep
      rw [if_pos hg]
    unfold placeOrder
    rw [hprep]
  · intro st req
    unfold sellPosition
    cases hprep : sellPositionPrep st req with
    | error e =>
      dsimp only
      intro hc
      have he : e = Err.pendingVotes := by
        have := (Except.error.injEq _ _).mp hc
        exact this
      rw [he] at hprep
      exact sellPositionPrep_no_pendingVotes st req hprep
    | ok ctx => simp

/-! ### Stake refunds and the settlement market update -/

theorem refundStakes_other (choice : Side) (l? : Option Nat) (u : Nat) :
    ∀ (votes : List VoteRow) (st : St),
      (∀ v ∈ votes, v.vote = choice → 0 < v.stakeAmount → v.userId ≠ u) →
      ∀ l2, memberBalance (refundStakes st votes choice l?) l2 u = memberBalance st l2 u := by
  intro votes
  induction votes with
  | nil => intro st hu l2; rfl
  | cons v votes ih =>
    intro st hu l2
    unfold refundStakes
    rw [List.foldl_cons]
    have htail := ih (if v.vote == choice && decide (0 < v.stakeAmount) then
        creditMember st l? v.userId v.stakeAmount else st)
      (fun w hw => hu w (List.mem_cons_of_mem _ hw)) l2
    unfold refundStakes at htail
    rw [htail]
    split
    case isTrue hcond =>
      simp only [Bool.and_eq_true, beq_iff_eq, decide_eq_true_eq] at hcond
      exact memberBalance_creditMember_other _ _ _ _ _ _
        (Ne.symm (hu v (List.mem_cons_self _ _) hcond.1 hcond.2))
    case isFalse hcond => rfl

theorem findMember_refundStakes_other (choice : Side) (l? : Option Nat) (u : Nat) :
    ∀ (votes : List VoteRow) (st : St),
      (∀ v ∈ votes, v.userId ≠ u) →
      ∀ l2, findMember (refundStakes st votes choice l?) l2 u = findMember st l2 u := by
  intro votes
  induction votes with
  | nil => intro st hu l2; rfl
  | cons v votes ih =>
    intro st hu l2
    unfold refundStakes
    rw [List.foldl_cons]
    have htail := ih (if v.vote == choice && decide (0 < v.stakeAmount) then
        creditMember st l? v.userId v.stakeAmount else st)
      (fun w hw => hu w (List.mem_cons_of_mem _ hw)) l2
    unfold refundStakes at htail
    rw [htail]
    split
    · exact findMember_creditMember_other _ _ _ _ _ _
        (Ne.symm (hu v (List.mem_cons_self _ _)))
    · rfl

/-- A voter of the refunded choice with a positive stake and an existing
member row ends with exactly their old balance plus their stake (one vote
per user via the Nodup hypothesis mirrors the votes table's unique key). -/
theorem refundStakes_self (choice : Side) :
    ∀ (votes : List VoteRow) (st : St) (v : VoteRow) (l : Nat) (mem : Member),
      (votes.map (fun w => w.userId)).Nodup → v ∈ votes → v.vote = choice →
      0 < v.stakeAmount → findMember st l v.userId = some mem →
      memberBalance (refundStakes st votes choice (some l)) l v.userId =
        mem.tokenBalance + v.stakeAmount := by
  intro votes
  induction votes with
  | nil => intro st v l mem hnd hv; cases hv
  | cons w votes ih =>
    intro st v l mem hnd hv hchoice hstake hmem
    have hnd2 := hnd
    rw [List.map_cons, List.nodup_cons] at hnd2
    unfold refundStakes
    rw [List.foldl_cons]
    rcases List.mem_cons.mp hv with heq | hmemv
    · subst heq
      have hcond : (v.vote == choice && decide (0 < v.stakeAmount)) = true := by
        simp [hchoice, hstake]
      rw [if_pos hcond]
      have hother : ∀ x ∈ votes, x.vote = choice → 0 < x.stakeAmount →
          x.userId ≠ v.userId := by
        intro x hx _ _ hxe
        exact hnd2.1 (hxe ▸ List.mem_map_of_mem (fun w => w.userId) hx)
      have := refundStakes_other choice (some l) v.userId votes
        (creditMember st (some l) v.userId v.stakeAmount) hother l
      unfold refundStakes at this
      rw [this]
      exact memberBalance_creditMember_self _ _ _ _ _ hmem
    · have hwne : w.userId ≠ v.userId := by
        intro hwe
        exact hnd2.1 (hwe ▸ List.mem_map_of_mem (fun w => w.userId) hmemv)
      have hmem2 : findMember (if (w.vote == choice && decide (0 < w.stakeAmount)) = true
          then creditMember st (some l) w.userId w.stakeAmount else st) l v.userId =
          some mem := by
        split
        · rw [findMember_creditMember_other _ _ _ _ _ _ (Ne.symm hwne)]
          exact hmem
        · exact hmem
      have := ih (if (w.vote == choice && decide (0 < w.stakeAmount)) = true
          then creditMember st (some l) w.userId w.stakeAmount else st) v l mem
        hnd2.2 hmemv hchoice hstake hmem2
      unfold refundStakes at this
      rw [this]

theorem markets_updateMemberBalance (st : St) (l u : Nat) (b : Int) :
    (updateMemberBalance st l u b).markets = st.markets := rfl

theorem markets_creditMember (st : St) (l? : Option Nat) (u : Nat) (a : Int) :
    (creditMember st l? u a).markets = st.markets := by
  cases l? with
  | none => rfl
  | some l => cases hf : findMember st l u <;> simp [creditMember, hf, updateMemberBalance]

theorem markets_deleteOrder (st : St) (oid : Nat) :
    (deleteOrder st oid).markets = st.markets := rfl

theorem markets_refundStakes (st : St) (votes : List VoteRow) (choice : Side)
    (l? : Option Nat) : (refundStakes st votes choice l?).markets = st.markets := by
  unfold refundStakes
  refine foldl_field_eq _ (fun s => s.markets) (fun s v => ?h) votes st
  dsimp only
  split
  · exact markets_creditMember _ _ _ _
  · rfl

theorem markets_payoutPosition (oc : Side) (l? : Option Nat) (s : St) (p : Position) :
    (payoutPosition oc l? s p).markets = s.markets := by
  unfold payoutPosition
  dsimp only
  split <;> split
  · exact markets_creditMember _ _ _ _
  · rfl
  · exact markets_creditMember _ _ _ _
  · rfl

theorem markets_refundOrder (l? : Option Nat) (s : St) (o : Order) :
    (refundOrder l? s o).markets = s.markets := by
  unfold refundOrder
  dsimp only
  rw [markets_deleteOrder, markets_creditMember]

/-- The markets table after settlement: only the settled market's row is
rewritten, to RESOLVED with the outcome. -/
theorem markets_settleMarket (st : St) (mid : Nat) (oc : Side) (l? : Option Nat) :
    (settleMarket st mid oc l?).markets = st.markets.map (fun m =>
      if m.id == mid then
        { m with status := MarketStatus.RESOLVED, resolvedOutcome := some oc }
      else m) := by
  unfold settleMarket
  rw [foldl_field_eq (refundOrder l?) (fun s => s.markets) (markets_refundOrder l?),
    foldl_field_eq (payoutPosition oc l?) (fun s => s.markets) (markets_payoutPosition oc l?)]

theorem findMarket_map_update (st : St) (mid : Nat) (f : Market → Market)
    (hid : ∀ m, (f m).id = m.id) :
    (List.find? (fun m => m.id == mid) (st.markets.map (fun m =>
      if m.id == mid then f m else m))) =
      (findMarket st mid).map (fun m => if m.id == mid then f m else m) := by
  unfold findMarket
  exact find?_map_key_preserving _ _ _ (fun a => by
    cases hk : (a.id == mid) with
    | true => simp [hk, hid a]
    | false => simp [hk])

/-- The found market row satisfies the lookup key. -/
theorem findMarket_key (st : St) (mid : Nat) (m : Market)
    (hf : findMarket st mid = some m) : (m.id == mid) = true := by
  have hf2 : List.find? (fun mm => mm.id == mid) st.markets = some m := hf
  have h3 := List.find?_some hf2
  exact h3

/-- The store the rejected-vote branch of the resolve-market handler leaves:
NO stakes refunded, the market row reopened and cleared, and the market's
votes deleted. -/
def rejectState (st : St) (marketId : Nat) (leagueId : Option Nat) : St :=
  let stR := refundStakes st (votesOf st marketId) Side.NO leagueId
  let stM : St := { stR with markets := stR.markets.map (fun m =>
    if m.id == marketId then
      { m with status := MarketStatus.OPEN, reportedAt := none,
               reportedBy := none, evidenceUrl := none }
    else m) }
  { stM with votes := stM.votes.filter (fun v => v.marketId != marketId) }

/-- C4: when the non-admin tally runs with a nonempty vote set covering every
stakeholder — if the weighted YES percentage is at most 50 the market is
REJECTED: NO voters' positive stakes are refunded (and only theirs), the
market row returns to OPEN with the reported fields cleared, and the
market's votes are deleted; if it exceeds 50 the market is resolved YES via
the shared settlement routine applied after refunding YES voters' stakes
(and only theirs). -/
theorem resolveMarket_vote_tally (st : St) (req : ResolveRequest) (market : Market)
    (hm : findMarket st req.marketId = some market)
    (hstatus : market.status = MarketStatus.VOTING)
    (hadmin : req.adminUserId = none)
    (hne : (votesOf st req.marketId).isEmpty = false)
    (hall : ((stakeholdersOf st req.marketId).all (fun p =>
      ((votesOf st req.marketId).map (fun v => v.userId)).contains p.userId)) = true)
    (hnd : ((votesOf st req.marketId).map (fun v => v.userId)).Nodup) :
    (yesPercentage st (votesOf st req.marketId) (st.votingSettings.getD defaultSettings) ≤ 50 →
      (resolveMarket st req).2 = Except.ok ResolveResult.rejected ∧
      (resolveMarket st req).1 = rejectState st req.marketId market.leagueId ∧
      findMarket (resolveMarket st req).1 req.marketId = some
        { market with status := MarketStatus.OPEN, reportedAt := none,
                      reportedBy := none, evidenceUrl := none } ∧
      votesOf (resolveMarket st req).1 req.marketId = [] ∧
      (∀ v ∈ votesOf st req.marketId, v.vote = Side.NO → 0 < v.stakeAmount →
        ∀ l mem, market.leagueId = some l → findMember st l v.userId = some mem →
          memberBalance (resolveMarket st req).1 l v.userId =
            mem.tokenBalance + v.stakeAmount) ∧
      (∀ u, (∀ v ∈ votesOf st req.marketId, v.vote = Side.NO → 0 < v.stakeAmount →
          v.userId ≠ u) →
        ∀ l2, memberBalance (resolveMarket st req).1 l2 u = memberBalance st l2 u)) ∧
    (¬ yesPercentage st (votesOf st req.marketId)
        (st.votingSettings.getD defaultSettings) ≤ 50 →
      (resolveMarket st req).2 = Except.ok (ResolveResult.resolvedWith Side.YES) ∧
      (resolveMarket st req).1 = settleMarket
        (refundStakes st (votesOf st req.marketId) Side.YES market.leagueId)
        req.marketId Side.YES market.leagueId ∧
      findMarket (resolveMarket st req).1 req.marketId = some
        { market with status := MarketStatus.RESOLVED,
                      resolvedOutcome := some Side.YES } ∧
      (∀ v ∈ votesOf st req.marketId, v.vote = Side.YES → 0 < v.stakeAmount →
        ∀ l mem, market.leagueId = some l → findMember st l v.userId = some mem →
          memberBalance (refundStakes st (votesOf st req.marketId) Side.YES
            market.leagueId) l v.userId = mem.tokenBalance + v.stakeAmount) ∧
      (∀ u, (∀ v ∈ votesOf st req.marketId, v.vote = Side.YES → 0 < v.stakeAmount →
          v.userId ≠ u) →
        ∀ l2, memberBalance (refundStakes st (votesOf st req.marketId) Side.YES
          market.leagueId) l2 u = memberBalance st l2 u)) := by
  have hkey := findMarket_key st req.marketId market hm
  have hsb : (market.status != MarketStatus.VOTING) = false := by simp [hstatus]
  constructor
  · intro hp
    have hres : resolveMarket st req =
        (rejectState st req.marketId market.leagueId, Except.ok ResolveResult.rejected) := by
      unfold resolveMarket
      rw [hm]
      dsimp only
      rw [hadmin]
      dsimp only
      rw [hsb]
      simp only [Bool.false_eq_true, if_false]
      rw [hne]
      simp only [Bool.false_eq_true, if_false]
      rw [hall]
      simp only [Bool.not_true, Bool.false_eq_true, if_false]
      rw [if_pos hp]
      unfold rejectState
      dsimp only
    rw [hres]
    dsimp only
    refine ⟨rfl, rfl, ?fm, ?vo, ?refund, ?others⟩
    case fm =>
      unfold rejectState
      dsimp only
      unfold findMarket
      dsimp only
      rw [show (refundStakes st (votesOf st req.marketId) Side.NO
          market.leagueId).markets = st.markets from markets_refundStakes _ _ _ _]
      rw [findMarket_map_update st req.marketId (fun m =>
        { m with status := MarketStatus.OPEN, reportedAt := none,
                 reportedBy := none, evidenceUrl := none }) (fun m => rfl), hm]
      simp only [Option.map_some']
      rw [if_pos hkey]
    case vo =>
      unfold rejectState votesOf
      dsimp only
      rw [List.filter_filter]
      refine List.filter_eq_nil_iff.mpr ?f
      intro v hv
      simp
    case refund =>
      intro v hv hchoice hstake l mem hleague hmem
      rw [memberBalance_congr (rejectState st req.marketId market.leagueId)
        (refundStakes st (votesOf st req.marketId) Side.NO market.leagueId)
        rfl l v.userId]
      rw [hleague]
      exact refundStakes_self Side.NO (votesOf st req.marketId) st v l mem hnd hv
        hchoice hstake hmem
    case others =>
      intro u hu l2
      rw [memberBalance_congr (rejectState st req.marketId market.leagueId)
        (refundStakes st (votesOf st req.marketId) Side.NO market.leagueId)
        rfl l2 u]
      exact refundStakes_other Side.NO market.leagueId u (votesOf st req.marketId) st hu l2
  · intro hp
    have hres : resolveMarket st req =
        (settleMarket (refundStakes st (votesOf st req.marketId) Side.YES market.leagueId)
          req.marketId Side.YES market.leagueId,
         Except.ok (ResolveResult.resolvedWith Side.YES)) := by
      unfold resolveMarket
      rw [hm]
      dsimp only
      rw [hadmin]
      dsimp only
      rw [hsb]
      simp only [Bool.false_eq_true, if_false]
      rw [hne]
      simp only [Bool.false_eq_true, if_false]
      rw [hall]
      simp only [Bool.not_true, Bool.false_eq_true, if_false]
      rw [if_neg hp]
    rw [hres]
    dsimp only
    refine ⟨rfl, rfl, ?fm, ?refund, ?others⟩
    case fm =>
      unfold findMarket
      rw [markets_settleMarket]
      rw [show (refundStakes st (votesOf st req.marketId) Side.YES
          market.leagueId).markets = st.markets from markets_refundStakes _ _ _ _]
      rw [findMarket_map_update st req.marketId (fun m =>
        { m with status := MarketStatus.RESOLVED,
                 resolvedOutcome := some Side.YES }) (fun m => rfl), hm]
      simp only [Option.map_some']
      rw [if_pos hkey]
    case refund =>
      intro v hv hchoice hstake l mem hleague hmem
      rw [hleague]
      exact refundStakes_self Side.YES (votesOf st req.marketId) st v l mem hnd hv
        hchoice hstake hmem
    case others =>
      intro u hu l2
      exact refundStakes_other Side.YES market.leagueId u (votesOf st req.marketId) st hu l2

/-! ### Witnesses -/

/-- Context the checked prefix produces for `nSt`/`nReq`: user 2 debited
(100-40)*1 = 60 tokens. -/
def nCtx : OrderCtx :=
  { st := { nSt with members := [{ leagueId := 1, userId := 2, tokenBalance := 40 },
                                 { leagueId := 1, userId := 3, tokenBalance := 0 }] },
    isAdmin := false, effLeague := some 1 }

/-- The VOTING market row of `wSt`. -/
def wMarket : Market :=
  { id := 1, status := MarketStatus.VOTING, leagueId := some 1, resolvedOutcome := none,
    reportedAt := some 7, reportedBy := some 4, evidenceUrl := some 1 }

/-- Witness for C10 at a concrete input: admin user 2 places the order and
their balance of 200 tokens is unchanged. -/
theorem placeOrder_admin_no_debit_witness :
    memberBalance (placeOrder tAdminSt tReq).1 1 2 = memberBalance tAdminSt 1 2 ∧
    memberBalance tAdminSt 1 2 = 200 :=
  ⟨placeOrder_admin_no_debit tAdminSt tReq (by decide) 1, by decide⟩

/-- Witness for C3 at a concrete input: buying YES quantity 2 at price 55
debits exactly 110 tokens. -/
theorem placeOrder_escrow_debit_witness :
    memberBalance (placeOrder tSt tReq).1 1 2 = memberBalance tSt 1 2 - costOf tReq ∧
    costOf tReq = 110 := by
  have h := placeOrder_escrow_debit_before_match tSt tReq tCtx (by decide) (by decide)
  rcases h.2.2 with ⟨l, mem, heff, hmem, h0, h1, h2, h3, hfinal⟩
  have hl : l = 1 := by
    have h4 : (some 1 : Option Nat) = some l := heff
    simpa using h4.symm
  refine ⟨?a, by decide⟩
  rw [← hl]
  exact hfinal

/-- Witness for C2 at a concrete input: an incoming buy for quantity 2
against a resting sell of remaining quantity 3 fills only that oldest
candidate and leaves nothing to rest. -/
theorem placeOrder_matching_follows_spec_witness :
    placeOrderMatches tCtx tReq =
      ([{ orderId := 10, orderUserId := 3, fillQuantity := 2, isContractTransfer := true,
          originalRemaining := 3 }], 0) := by
  have h := placeOrder_matching_follows_spec tSt tReq tCtx (by decide)
  exact h.2.2.2 tOrder [] (by decide) (by decide)

/-- Witness for C5's amended theorem at a concrete input. -/
theorem placeOrder_trade_prices_witness :
    (placeOrder nSt nReq).1.trades = nSt.trades ++
      (placeOrderMatches nCtx nReq).1.map
        (tradeOfMatch nReq.marketId nReq.userId nReq.side nReq.price) :=
  (placeOrder_trade_prices nSt nReq nCtx (by decide)).1

/-- Witness for C9 at a concrete input: the trade produced by the direct
sale has distinct participants. -/
theorem no_self_trade_witness :
    ({ marketId := 1, yesUserId := 2, noUserId := 3, price := 55, quantity := 2 } : Trade) ∈
      tSt.trades ∨ (2 : Nat) ≠ 3 := by
  have h := no_self_trade tSt tReq tCtx (by decide) vSt vSell
  exact h.2.1 _ (by decide)

/-- Witness for C6's amended theorem at a concrete input: user 2 with an
unvoted VOTING market is rejected when placing a buy order. -/
theorem pending_vote_gate_witness :
    placeOrder vSt vBuy = (vSt, Except.error Err.pendingVotes) :=
  pending_vote_gate_buy_only.1 vSt vBuy (by decide)

/-- Witness for C4 at the spec's vote-rejection round-trip scenario: one YES
and one NO voter with stakes 50 under the default 49.5/49.5/1 weights gives
a weighted YES percentage of exactly 50, so the market is REJECTED, the NO
voter's stake is refunded (balance 0 to 50), and the votes are deleted. -/
theorem resolveMarket_vote_tally_witness :
    (resolveMarket wSt wReq).2 = Except.ok ResolveResult.rejected ∧
    memberBalance (resolveMarket wSt wReq).1 1 3 = 50 ∧
    votesOf (resolveMarket wSt wReq).1 1 = [] := by
  have h := resolveMarket_vote_tally wSt wReq wMarket (by decide) (by decide) rfl
    (by decide) (by decide) (by decide)
  have hp : yesPercentage wSt (votesOf wSt wReq.marketId)
      (wSt.votingSettings.getD defaultSettings) ≤ 50 := by
    norm_num [yesPercentage, weightedTally, votesOf, wSt, wReq, defaultSettings, List.filter]
  have hc := h.1 hp
  refine ⟨hc.1, ?bal, hc.2.2.2.1⟩
  have hb := hc.2.2.2.2.1
    { marketId := 1, userId := 3, vote := Side.NO, stakeAmount := 50 }
    (by decide) rfl (by decide) 1
    { leagueId := 1, userId := 3, tokenBalance := 0 } (by decide) (by decide)
  simpa using hb

end DykCommons
